import Mathlib

/-!
go-tagexpr: selector resolver, selector evaluation, validator traversal, binder coercion

A shallow embedding of

* `findSelector` and `selectorExprNode.Run` (`spec_selector.go`),
* `Validator.validate` (`validator/validator.go`),
* `paramInfo.bindStringSlice` (`binding/param_info.go`),

followed by the properties established about them.

Go strings are modelled as lists of characters (`Text`).  Every index the source
takes into a string lies on a boundary of a regular-expression match or in front
of an ASCII character, so byte offsets and character offsets select the same
pieces of a well-formed UTF-8 text.
-/

namespace Tagexpr

/-- A Go string, as the sequence of its characters. -/
abbrev Text := List Char

/-! ## The selector regular expression

`selectorRegexp` is
`^([\!\+\-]*)(\([ \t]*[A-Za-z_]+[A-Za-z0-9_\.]*[ \t]*\))?(\$)([\)\[\],\+\-\*\/%><\|&!=\^ \t\\]|$)`.
Each character class of it is a predicate below, and the matcher follows the
expression piece by piece.  Every repetition in it is followed by a piece that
cannot start with a character of the repeated class, so the greedy choice is the
only one that can lead to a match and no backtracking is needed.
-/

/-- The class `[\!\+\-]` of modifier characters (group 1). -/
def isModifier (c : Char) : Bool := c == '!' || c == '+' || c == '-'

/-- The class `[ \t]`. -/
def isBlank (c : Char) : Bool := c == ' ' || c == '\t'

/-- A range `lo-hi` of a character class. -/
def inRange (lo hi c : Char) : Bool := lo.toNat ≤ c.toNat && c.toNat ≤ hi.toNat

/-- The class `[A-Za-z_]`. -/
def isIdentStart (c : Char) : Bool := inRange 'A' 'Z' c || inRange 'a' 'z' c || c == '_'

/-- The class `[A-Za-z0-9_\.]`. -/
def isIdentChar (c : Char) : Bool :=
  inRange 'A' 'Z' c || inRange 'a' 'z' c || inRange '0' '9' c || c == '_' || c == '.'

/-- The class `[\)\[\],\+\-\*\/%><\|&!=\^ \t\\]` of characters allowed right
after the marker (group 4). -/
def isDelimiter (c : Char) : Bool :=
  c == ')' || c == '[' || c == ']' || c == ',' || c == '+' || c == '-' || c == '*' ||
  c == '/' || c == '%' || c == '>' || c == '<' || c == '|' || c == '&' || c == '!' ||
  c == '=' || c == '^' || c == ' ' || c == '\t' || c == '\\'

/-- One match of `selectorRegexp`: the whole match `r[0]` and the groups
`r[1]` .. `r[4]`. -/
structure Submatch where
  /-- `r[0]`, the matched text. -/
  whole : Text
  /-- `r[1]`, the run of modifier characters. -/
  mods : Text
  /-- `r[2]`, the parenthesised field path, empty when the group did not take part. -/
  group : Text
  /-- `r[3]`, the marker. -/
  marker : Text
  /-- `r[4]`, the delimiter, empty at the end of the text. -/
  delim : Text
deriving DecidableEq, Repr

/-- Group 2, `\([ \t]*[A-Za-z_]+[A-Za-z0-9_\.]*[ \t]*\)`, matched at the start of
`s`: the matched text and what follows it. -/
def matchGroup (s : Text) : Option (Text × Text) :=
  match s with
  | [] => none
  | o :: s1 =>
    if o = '(' then
      let ws1 := s1.takeWhile isBlank
      match s1.dropWhile isBlank with
      | [] => none
      | c :: s3 =>
        if isIdentStart c then
          let ident := s3.takeWhile isIdentChar
          let s4 := s3.dropWhile isIdentChar
          let ws2 := s4.takeWhile isBlank
          match s4.dropWhile isBlank with
          | [] => none
          | e :: s6 =>
            if e = ')' then some ('(' :: (ws1 ++ c :: (ident ++ (ws2 ++ [')']))), s6)
            else none
        else none
    else none

/-- The match of `selectorRegexp` at the start of `raw`, if there is one. -/
def selectorRegexp (raw : Text) : Option Submatch :=
  let mods := raw.takeWhile isModifier
  let s1 := raw.dropWhile isModifier
  let gs : Text × Text :=
    match matchGroup s1 with
    | some (g, r) => (g, r)
    | none => ([], s1)
  match gs.2 with
  | [] => none
  | m :: s3 =>
    if m = '$' then
      match s3 with
      | [] => some ⟨mods ++ (gs.1 ++ ['$']), mods, gs.1, ['$'], []⟩
      | d :: _ =>
        if isDelimiter d then some ⟨mods ++ (gs.1 ++ ['$', d]), mods, gs.1, ['$'], [d]⟩
        else none
    else none

/-- The list `selectorRegexp.FindAllStringSubmatch(raw, -1)`.  The expression
starts with `^`, which only matches at the start of the text, and a match is
never empty, so the list holds at most one match. -/
def findAllStringSubmatch (raw : Text) : List Submatch :=
  (selectorRegexp raw).toList

/-! ## `strings.TrimSpace` -/

/-- Go's `unicode.IsSpace`. -/
def isSpace (c : Char) : Bool :=
  c == '\t' || c == '\n' || c.toNat == 0x0B || c.toNat == 0x0C || c == '\r' || c == ' ' ||
  c.toNat == 0x85 || c.toNat == 0xA0 || c.toNat == 0x1680 ||
  (0x2000 ≤ c.toNat && c.toNat ≤ 0x200A) ||
  c.toNat == 0x2028 || c.toNat == 0x2029 || c.toNat == 0x202F || c.toNat == 0x205F ||
  c.toNat == 0x3000

/-- Go's `strings.TrimSpace`: the text without its leading and trailing white space. -/
def trimSpace (s : Text) : Text :=
  ((s.dropWhile isSpace).reverse.dropWhile isSpace).reverse

/-! ## `findSelector` -/

/-- The reader of a paired symbol, `readPairedSymbol(expr, '[', ']')`, whose
source is not part of the files at hand: on the cursor text it answers `none`
(a nil result, cursor unchanged) or `some (sub, rest)`, the content read between
the pair and the new cursor. -/
abbrev PairedReader := Text → Option (Text × Text)

/-- What `findSelector` hands back, together with the cursor `*expr` it leaves. -/
structure Selector where
  field : Text
  name : Text
  subSelector : List Text
  boolOpposite : Option Bool
  floatOpposite : Bool
  found : Bool
  /-- The text `*expr` after the call. -/
  expr : Text
deriving DecidableEq, Repr

/-- The statement `return "", "", nil, nil, false, false`, with the cursor as it
stands at that point. -/
def notFound (cursor : Text) : Selector :=
  ⟨[], [], [], none, false, false, cursor⟩

/-- How the loop over the bracketed sub-expressions ends. -/
inductive Brackets where
  /-- A pair whose content is empty or starts with `[` was read. -/
  | rejected
  /-- The reader answered nil: the sub-expressions collected and the cursor. -/
  | done (subSelector : List Text) (cursor : Text)
deriving DecidableEq, Repr

/-- The `for` loop of `findSelector` (lines 68-78), started on the cursor `cur`
with `acc` already collected.  `fuel` bounds the number of iterations; `none`
means the bound was reached. -/
def readBrackets (rps : PairedReader) : Nat → Text → List Text → Option Brackets
  | 0, _, _ => none
  | fuel + 1, cur, acc =>
    match rps cur with
    | none => some (Brackets.done acc cur)
    | some (sub, rest) =>
      if sub = [] ∨ sub.head? = some '[' then some Brackets.rejected
      else readBrackets rps fuel rest (acc ++ [trimSpace sub])

/-- The body of `findSelector` on the text `raw`, its loop bounded by `fuel`. -/
def findSelectorFuel (rps : PairedReader) (fuel : Nat) (raw : Text) : Option Selector :=
  match findAllStringSubmatch raw with
  | [r] =>
    let field : Text :=
      if r.group.length > 0 then trimSpace ((r.group.drop 1).take (r.group.length - 1 - 1))
      else []
    let name := r.marker
    let cursor := raw.drop (r.whole.length - r.delim.length)
    match readBrackets rps fuel cursor [] with
    | none => none
    | some Brackets.rejected => some (notFound raw)
    | some (Brackets.done subSelector cur) =>
      if r.mods.length = 0 then
        some ⟨field, name, subSelector, none, false, true, cur⟩
      else
        let t := r.mods.headD ' '
        if r.mods.any (fun u => t != u) then some (notFound cur)
        else if t = '!' then
          some ⟨field, name, subSelector, some (r.mods.length % 2 == 1), false, true, cur⟩
        else if t = '-' then
          some ⟨field, name, subSelector, none, r.mods.length % 2 == 1, true, cur⟩
        else if t = '+' then
          some ⟨field, name, subSelector, none, false, true, cur⟩
        else some (notFound cur)
  | _ => some ⟨[], [], [], none, false, false, raw⟩

/-- The function `findSelector`.  A reader that consumes at least one character
for each pair it reads ends the loop within `raw.length + 1` iterations; `none`
stands for a loop that does not end within that bound. -/
def findSelector (rps : PairedReader) (raw : Text) : Option Selector :=
  findSelectorFuel rps (raw.length + 1) raw

/-- Modelled from the spec: the scan of `readPairedSymbol` (not among the source
files) for the bracket that closes the pair, counting nested pairs; `acc` holds
the content read so far, last character first. -/
def scanPaired (left right : Char) : Nat → Text → Text → Option (Text × Text)
  | _, _, [] => none
  | depth, acc, c :: cs =>
    if c = right then
      match depth with
      | 0 => some (acc.reverse, cs)
      | d + 1 => scanPaired left right d (c :: acc) cs
    else if c = left then scanPaired left right (depth + 1) (c :: acc) cs
    else scanPaired left right depth (c :: acc) cs

/-- Modelled from the spec: `readPairedSymbol` (not among the source files), the
reader of one "immediately-following bracketed sub-expression": nil unless the
cursor starts with `left` and the pair is closed, otherwise the content between
the pair and the text after it. -/
def readPairedSymbol (left right : Char) : PairedReader := fun s =>
  match s with
  | [] => none
  | c :: cs => if c = left then scanPaired left right 0 [] cs else none

/-! ## The selector grammar of the specification

"optional run of prefix modifier characters drawn from `{!, +, -}` → optional
parenthesized absolute field path (letters, digits, underscore, dots) → the
literal selector marker character → zero or more immediately-following bracketed
sub-expressions".
-/

/-- A parenthesised field path `( lead first more trail )`. -/
structure FieldGroup where
  /-- The blanks after the opening parenthesis. -/
  lead : Text
  /-- The first character of the path. -/
  first : Char
  /-- The other characters of the path. -/
  more : Text
  /-- The blanks before the closing parenthesis. -/
  trail : Text
deriving DecidableEq, Repr

/-- The field path of a group. -/
def FieldGroup.path (g : FieldGroup) : Text := g.first :: g.more

/-- The text of a group, parentheses included. -/
def FieldGroup.text (g : FieldGroup) : Text :=
  '(' :: (g.lead ++ g.first :: (g.more ++ (g.trail ++ [')'])))

/-- The characters of a group are of the classes the grammar asks for. -/
def FieldGroup.wf (g : FieldGroup) : Bool :=
  g.lead.all isBlank && isIdentStart g.first && g.more.all isIdentChar && g.trail.all isBlank

/-- The text of an optional group. -/
def groupText : Option FieldGroup → Text
  | none => []
  | some g => g.text

/-- The field path an optional group stands for; empty without a group. -/
def groupField : Option FieldGroup → Text
  | none => []
  | some g => g.path

/-- An optional group is well formed. -/
def groupWf : Option FieldGroup → Bool
  | none => true
  | some g => g.wf

/-- The text that follows the marker is empty or starts with a delimiter. -/
def delimited (tail : Text) : Bool := tail.head?.all isDelimiter

/-- The reader consumes at least one character for each pair it reads. -/
def Shrinks (rps : PairedReader) : Prop :=
  ∀ s sub rest, rps s = some (sub, rest) → rest.length < s.length

/-- The reader leaves a suffix of the text it reads from, having consumed a
non-empty chunk of it. -/
def Consumes (rps : PairedReader) : Prop :=
  ∀ s sub rest, rps s = some (sub, rest) → ∃ chunk, chunk ≠ [] ∧ s = chunk ++ rest

/-- The text `cur` starts with a sequence of bracket pairs, as the reader reads
them one after the other, of which one has a content that is empty or starts
with `[`: either the first pair read has such a content, or a first pair is read
and the text after it starts with such a sequence. -/
inductive BadPairAhead (rps : PairedReader) : Text → Prop where
  | here (cur sub rest : Text) (hread : rps cur = some (sub, rest))
      (hbad : sub = [] ∨ sub.head? = some '[') : BadPairAhead rps cur
  | later (cur sub rest : Text) (hread : rps cur = some (sub, rest))
      (hrest : BadPairAhead rps rest) : BadPairAhead rps cur

/-- The text consumed by a sequence of pairs, each given as the chunk of text it
takes up and the content read from it. -/
def consumedText : List (Text × Text) → Text
  | [] => []
  | p :: ps => p.1 ++ consumedText ps

/-- The reader, started in front of `consumedText pairs ++ cur`, reads the pairs
one after the other, each with an acceptable content, and answers nil on `cur`. -/
def ReadsPairs (rps : PairedReader) : List (Text × Text) → Text → Prop
  | [], cur => rps cur = none
  | p :: ps, cur =>
    p.1 ≠ [] ∧ rps (p.1 ++ (consumedText ps ++ cur)) = some (p.2, consumedText ps ++ cur) ∧
    ¬ (p.2 = [] ∨ p.2.head? = some '[') ∧ ReadsPairs rps ps cur

/-! ## Values and `selectorExprNode.Run` -/

/-- A dynamically typed result (`interface{}`): nil, a float64, a boolean, a
string, or any other value, passed through as it is.  The carrier `F` of the
float64 values is left abstract: `Run` uses nothing of it but the negation. -/
inductive Value (F : Type) where
  | nil
  | float (f : F)
  | bool (b : Bool)
  | str (s : Text)
  | other (id : Nat)
deriving DecidableEq, Repr

/-- The part of `*TagExpr` that `Run` uses: the method `getValue(field, subFields)`,
whose source is not part of the files at hand. -/
structure TagExpr (F : Type) where
  getValue : Text → List (Value F) → Value F

/-- The interface `ExprNode`, as far as `Run` uses it: the method
`Run(currField, tagExpr)`. -/
structure ExprNode (F : Type) where
  Run : Text → TagExpr F → Value F

/-- The struct `selectorExprNode`. -/
structure selectorExprNode (F : Type) where
  field : Text
  name : Text
  subExprs : List (ExprNode F)
  boolOpposite : Option Bool
  floatOpposite : Bool

/-- Lines 121-127 of `Run`: what is returned for the resolved value `v`.
`realValue` is the function of that name, whose source is not part of the files
at hand. -/
def selectorExprNode.opposite {F : Type} [Neg F]
    (realValue : Value F → Option Bool → Value F) (ve : selectorExprNode F)
    (v : Value F) : Value F :=
  if ve.floatOpposite then
    match v with
    | Value.float f => Value.float (-f)
    | _ => Value.nil
  else realValue v ve.boolOpposite

/-- The arguments `subFields` of `Run` (lines 109-115): the results of the
sub-expressions, in order, all run for the same current field. -/
def selectorExprNode.subFields {F : Type} (ve : selectorExprNode F) (currField : Text)
    (tagExpr : TagExpr F) : List (Value F) :=
  ve.subExprs.map (fun e => e.Run currField tagExpr)

/-- The method `selectorExprNode.Run`. -/
def selectorExprNode.Run {F : Type} [Neg F] (realValue : Value F → Option Bool → Value F)
    (ve : selectorExprNode F) (currField : Text) (tagExpr : TagExpr F) : Value F :=
  let subFields := ve.subFields currField tagExpr
  let field := if ve.field = [] then currField else ve.field
  let v := tagExpr.getValue field subFields
  ve.opposite realValue v

/-- Modelled from the spec: `realValue` (not among the source files), step 5 of
the selector evaluation: "if `booleanNegation` is set, flip the boolean result;
values ... pass through unchanged when no negation flag is present".  With a
flag the value is coerced to its truthiness `truthy v`, flipped when the flag
says "negate"; without a flag it is passed through. -/
def realValue {F : Type} (truthy : Value F → Bool) (v : Value F)
    (boolOpposite : Option Bool) : Value F :=
  match boolOpposite with
  | none => v
  | some negate => Value.bool (if negate then !(truthy v) else truthy v)

/-- The loop of `readSelectorExprNode` (lines 42-50): every sub-expression text is
parsed, and the first that fails makes the whole reading fail.  `parseExprNode s`
stands for `ParseExprNode` on a new group followed by `sortPriority`; its source
is not part of the files at hand. -/
def parseSubExprs {F : Type} (parseExprNode : Text → Option (ExprNode F)) :
    List Text → Option (List (ExprNode F))
  | [] => some []
  | s :: ss =>
    match parseExprNode s with
    | none => none
    | some grp =>
      match parseSubExprs parseExprNode ss with
      | none => none
      | some grps => some (grp :: grps)

/-- The method `readSelectorExprNode`: the node read (nil when there is none) and
the cursor left.  `none` stands for a loop of `findSelector` that does not end. -/
def readSelectorExprNode {F : Type} (rps : PairedReader)
    (parseExprNode : Text → Option (ExprNode F)) (expr : Text) :
    Option (Option (selectorExprNode F) × Text) :=
  match findSelector rps expr with
  | none => none
  | some sel =>
    if sel.found then
      match parseSubExprs parseExprNode sel.subSelector with
      | none => some (none, sel.expr)
      | some subExprs =>
        some (some ⟨sel.field, sel.name, subExprs, sel.boolOpposite, sel.floatOpposite⟩,
          sel.expr)
    else some (none, sel.expr)

/-! ## `Validator.validate` -/

/-- The kinds of `reflect.Kind`. -/
inductive Kind where
  | Invalid | Bool | Int | Int8 | Int16 | Int32 | Int64 | Uint | Uint8 | Uint16 | Uint32
  | Uint64 | Uintptr | Float32 | Float64 | Complex64 | Complex128 | Array | Chan | Func
  | Interface | Map | Ptr | Slice | String | Struct | UnsafePointer
deriving DecidableEq, Repr

/-- A value as `validate` sees it once `goutil.DereferenceIfaceValue` and
`goutil.DereferenceValue` have removed interfaces and pointers around it. -/
inductive RValue where
  /-- A value of any kind but slice, array and map; `id` tells it from the others. -/
  | leaf (kind : Kind) (id : Nat)
  /-- A slice or an array: `elemKind` is the kind of its dereferenced element type,
  `elems` are `rv.Index(0)`, `rv.Index(1)`, ... -/
  | list (array : Bool) (elemKind : Kind) (elems : List RValue)
  /-- A map: the kinds of its dereferenced key and element types, and for each key
  of `rv.MapKeys()`, in that order, the key, `key.String()` and `rv.MapIndex(key)`. -/
  | map (keyKind elemKind : Kind) (entries : List (RValue × Text × RValue))
deriving Repr

/-- The kinds listed at lines 79, 96 and 100:
`reflect.Struct, reflect.Interface, reflect.Slice, reflect.Array, reflect.Map`. -/
def isComposite (k : Kind) : Bool :=
  k = Kind.Struct || k = Kind.Interface || k = Kind.Slice || k = Kind.Array || k = Kind.Map

/-- Go's `strconv.Itoa` on an index. -/
def itoa (i : Nat) : Text := (Nat.repr i).toList

/-- The struct `Validator` with what its fields give access to; the sources of
package `tagexpr` used here are not part of the files at hand.  `E` is the type
of errors, `X` the type of the `*TagExpr` that `vm.Run` returns. -/
structure Validator (E X : Type) where
  /-- `v.vm.Run(rv)`. -/
  Run : RValue → Except E X
  /-- The calls `expr.Range` makes to its argument, in order: the path, the text
  `es.String()` and `tagexpr.FakeBool(eval())` of each. -/
  Range : X → List (Text × Text × Bool)
  /-- `expr.EvalString`. -/
  EvalString : X → Text → Text
  /-- `tagexpr.ExprNameSeparator`. -/
  ExprNameSeparator : Text
  /-- `v.errFactory`. -/
  errFactory : Text → Text → E

/-- The constant `ErrMsgExprName`. -/
def ErrMsgExprName : Text := ['m', 's', 'g']

/-- The function passed to `expr.Range` (lines 127-137), over the calls `Range`
makes until it is answered false: the final `errSelector` and `errPath`. -/
def rangeErr (separator : Text) : List (Text × Text × Bool) → Text × Text
  | [] => ([], [])
  | (path, es, valid) :: rest =>
    if decide (separator <:+: path) then rangeErr separator rest
    else if valid then rangeErr separator rest
    else (es, path)

/-- Lines 121-143 of `validate`: the expressions of `rv` are run and the first
that is not valid makes the error. -/
def validateExprs {E X : Type} (v : Validator E X) (selectorPrefix : Text) (rv : RValue) :
    Option E :=
  match v.Run rv with
  | Except.error err => some err
  | Except.ok expr =>
    match rangeErr v.ExprNameSeparator (v.Range expr) with
    | (errSelector, errPath) =>
      if errSelector = [] then none
      else
        some (v.errFactory (selectorPrefix ++ errPath)
          (v.EvalString expr (errSelector ++ v.ExprNameSeparator ++ ErrMsgExprName)))

mutual
/-- The method `Validator.validate`.  Next to the error returned (`none` is nil)
it gives the calls of `validate` made, this one first, each with its
`selectorPrefix` and its value, in the order in which they are made. -/
def validate {E X : Type} (v : Validator E X) (selectorPrefix : Text) :
    RValue → List (Text × RValue) × Option E
  | RValue.leaf kind id =>
    ([(selectorPrefix, RValue.leaf kind id)],
      validateExprs v selectorPrefix (RValue.leaf kind id))
  | RValue.list array elemKind elems =>
    if elems.length = 0 then ([(selectorPrefix, RValue.list array elemKind elems)], none)
    else if isComposite elemKind then
      match validateIndexes v selectorPrefix 0 elems with
      | (calls, some err) => ((selectorPrefix, RValue.list array elemKind elems) :: calls, some err)
      | (calls, none) =>
        ((selectorPrefix, RValue.list array elemKind elems) :: calls,
          validateExprs v selectorPrefix (RValue.list array elemKind elems))
    else ([(selectorPrefix, RValue.list array elemKind elems)], none)
  | RValue.map keyKind elemKind entries =>
    if entries.length = 0 then ([(selectorPrefix, RValue.map keyKind elemKind entries)], none)
    else if !isComposite keyKind && !isComposite elemKind then
      ([(selectorPrefix, RValue.map keyKind elemKind entries)], none)
    else
      match validateKeys v selectorPrefix (isComposite keyKind) (isComposite elemKind)
        entries with
      | (calls, err) => ((selectorPrefix, RValue.map keyKind elemKind entries) :: calls, err)
/-- The loop `for i := count - 1; i >= 0; i--` of lines 80-84 over the elements
`elems`, the first of which has the index `i`: the elements behind are validated
first, and an error ends the loop. -/
def validateIndexes {E X : Type} (v : Validator E X) (selectorPrefix : Text) :
    Nat → List RValue → List (Text × RValue) × Option E
  | _, [] => ([], none)
  | i, elem :: elems =>
    match validateIndexes v selectorPrefix (i + 1) elems with
    | (calls, some err) => (calls, some err)
    | (calls, none) =>
      match validate v (selectorPrefix ++ itoa i ++ ['/']) elem with
      | (more, err) => (calls ++ more, err)
/-- The loop over `rv.MapKeys()` of lines 106-117. -/
def validateKeys {E X : Type} (v : Validator E X) (selectorPrefix : Text)
    (canKey canValue : Bool) :
    List (RValue × Text × RValue) → List (Text × RValue) × Option E
  | [] => ([], none)
  | (key, keyString, value) :: rest =>
    match (if canKey then validate v (selectorPrefix ++ ['{', 'k', '}'] ++ ['/']) key
      else ([], none)) with
    | (calls, some err) => (calls, some err)
    | (calls, none) =>
      match (if canValue then validate v (selectorPrefix ++ keyString ++ ['/']) value
        else ([], none)) with
      | (more, some err) => (calls ++ more, some err)
      | (more, none) =>
        match validateKeys v selectorPrefix canKey canValue rest with
        | (last, err) => (calls ++ more ++ last, err)
end

/-- The calls of `validate` made when the elements `elems`, the first of which has
the index `i`, are all validated from the last to the first. -/
def callsDescending {E X : Type} (v : Validator E X) (selectorPrefix : Text) :
    Nat → List RValue → List (Text × RValue)
  | _, [] => []
  | i, elem :: elems =>
    callsDescending v selectorPrefix (i + 1) elems ++
      (validate v (selectorPrefix ++ itoa i ++ ['/']) elem).1

/-- A validator to try `validate` on: a leaf passes when its `id` is 0 and fails
on its expression `A` otherwise; errors are pairs of a fail path and a message. -/
def sampleValidator : Validator (Text × Text) Nat where
  Run := fun rv =>
    match rv with
    | RValue.leaf _ id => Except.ok id
    | _ => Except.error (['?'], [])
  Range := fun id => [(['A'], ['A'], decide (id = 0))]
  EvalString := fun _ _ => []
  ExprNameSeparator := ['@']
  errFactory := fun failPath msg => (failPath, msg)

/-! ## `paramInfo.bindStringSlice` -/

/-- What one of the setters of `reflect.Value` writes into the field: `SetString`,
`SetBool`, `SetFloat`, `SetInt`, `SetUint`, or `Set` with a value built
elsewhere.  `F` is the carrier of the floats, `S` that of the built values. -/
inductive Stored (F S : Type) where
  | string (s : Text)
  | bool (b : Bool)
  | float (f : F)
  | int (i : Int)
  | uint (u : Nat)
  | value (vv : S)
deriving DecidableEq, Repr

/-- What `bindStringSlice` calls outside the files at hand.  A parser of `strconv`
gives a value and an error (`none` is nil). -/
structure BindEnv (E F S : Type) where
  /-- `strconv.ParseBool(s)`. -/
  ParseBool : Text → Bool × Option E
  /-- `strconv.ParseFloat(s, bitSize)`. -/
  ParseFloat : Text → Nat → F × Option E
  /-- `strconv.ParseInt(s, base, bitSize)`. -/
  ParseInt : Text → Nat → Nat → Int × Option E
  /-- `strconv.ParseUint(s, base, bitSize)`. -/
  ParseUint : Text → Nat → Nat → Nat × Option E
  /-- `stringsToValue(v.Type().Elem(), a, looseZeroMode)` for the field at hand:
  the value, `retry` and the error.  Its body rests on the conversions of package
  `ameda`. -/
  stringsToValue : List Text → Bool → S × Bool × Option E
  /-- `unsafeUnmarshalValue(v, a[0], looseZeroMode)` for the field at hand: the
  error, and what it wrote into the field, if anything. -/
  unsafeUnmarshalValue : Text → Bool → Option E × Option (Stored F S)

/-- The struct `paramInfo`, as far as `bindStringSlice` reads it. -/
structure paramInfo where
  looseZeroMode : Bool

/-- The struct `tagInfo`, as far as `bindStringSlice` reads it. -/
structure tagInfo (E : Type) where
  typeError : E

/-- The outcome of `bindStringSlice`: the error returned (`none` is nil) and what
was written into the field (`none` when nothing was). -/
structure Bound (E F S : Type) where
  err : Option E
  stored : Option (Stored F S)

/-- The condition `err == nil || (a[0] == "" && p.looseZeroMode)`. -/
def accepted {E : Type} (err : Option E) (a0 : Text) (looseZeroMode : Bool) : Bool :=
  err.isNone || (decide (a0 = []) && looseZeroMode)

/-- The `default` branch of the switch (lines 307-311) and the final
`return info.typeError`. -/
def bindDefault {E F S : Type} (env : BindEnv E F S) (p : paramInfo) (info : tagInfo E)
    (a0 : Text) : Bound E F S :=
  match env.unsafeUnmarshalValue a0 p.looseZeroMode with
  | (none, stored) => ⟨none, stored⟩
  | (some _, stored) => ⟨some info.typeError, stored⟩

/-- The method `paramInfo.bindStringSlice` on the strings `a0 :: more` (the source
notes `len(a)>0`).  `field` is the kind of the value that `p.getField(expr, true)`
gives once dereferenced, `none` when that value is not valid; `getField` never
returns an error. -/
def bindStringSlice {E F S : Type} (env : BindEnv E F S) (p : paramInfo) (info : tagInfo E)
    (field : Option Kind) (a0 : Text) (more : List Text) : Bound E F S :=
  match field with
  | none => ⟨none, none⟩
  | some Kind.String => ⟨none, some (Stored.string a0)⟩
  | some Kind.Bool =>
    match env.ParseBool a0 with
    | (bol, err) =>
      if accepted err a0 p.looseZeroMode then ⟨none, some (Stored.bool bol)⟩
      else ⟨some info.typeError, none⟩
  | some Kind.Float32 =>
    match env.ParseFloat a0 32 with
    | (f, err) =>
      if accepted err a0 p.looseZeroMode then ⟨none, some (Stored.float f)⟩
      else ⟨some info.typeError, none⟩
  | some Kind.Float64 =>
    match env.ParseFloat a0 64 with
    | (f, err) =>
      if accepted err a0 p.looseZeroMode then ⟨none, some (Stored.float f)⟩
      else ⟨some info.typeError, none⟩
  | some Kind.Int64 | some Kind.Int =>
    match env.ParseInt a0 10 64 with
    | (i, err) =>
      if accepted err a0 p.looseZeroMode then ⟨none, some (Stored.int i)⟩
      else ⟨some info.typeError, none⟩
  | some Kind.Int32 =>
    match env.ParseInt a0 10 32 with
    | (i, err) =>
      if accepted err a0 p.looseZeroMode then ⟨none, some (Stored.int i)⟩
      else ⟨some info.typeError, none⟩
  | some Kind.Int16 =>
    match env.ParseInt a0 10 16 with
    | (i, err) =>
      if accepted err a0 p.looseZeroMode then ⟨none, some (Stored.int i)⟩
      else ⟨some info.typeError, none⟩
  | some Kind.Int8 =>
    match env.ParseInt a0 10 8 with
    | (i, err) =>
      if accepted err a0 p.looseZeroMode then ⟨none, some (Stored.int i)⟩
      else ⟨some info.typeError, none⟩
  | some Kind.Uint64 | some Kind.Uint =>
    match env.ParseUint a0 10 64 with
    | (u, err) =>
      if accepted err a0 p.looseZeroMode then ⟨none, some (Stored.uint u)⟩
      else ⟨some info.typeError, none⟩
  | some Kind.Uint32 =>
    match env.ParseUint a0 10 32 with
    | (u, err) =>
      if accepted err a0 p.looseZeroMode then ⟨none, some (Stored.uint u)⟩
      else ⟨some info.typeError, none⟩
  | some Kind.Uint16 =>
    match env.ParseUint a0 10 16 with
    | (u, err) =>
      if accepted err a0 p.looseZeroMode then ⟨none, some (Stored.uint u)⟩
      else ⟨some info.typeError, none⟩
  | some Kind.Uint8 =>
    match env.ParseUint a0 10 8 with
    | (u, err) =>
      if accepted err a0 p.looseZeroMode then ⟨none, some (Stored.uint u)⟩
      else ⟨some info.typeError, none⟩
  | some Kind.Slice =>
    match env.stringsToValue (a0 :: more) p.looseZeroMode with
    | (vv, retry, err) =>
      if err.isNone then ⟨none, some (Stored.value vv)⟩
      else if !retry then ⟨some info.typeError, none⟩
      else bindDefault env p info a0
  | some _ => bindDefault env p info a0

/-- The scalar kinds the switch of `bindStringSlice` has a parser for: the
boolean, the floats, the signed and the unsigned integers. -/
def isScalar (k : Kind) : Bool :=
  k = Kind.Bool || k = Kind.Float32 || k = Kind.Float64 ||
  k = Kind.Int || k = Kind.Int8 || k = Kind.Int16 || k = Kind.Int32 || k = Kind.Int64 ||
  k = Kind.Uint || k = Kind.Uint8 || k = Kind.Uint16 || k = Kind.Uint32 || k = Kind.Uint64

/-- The zero value of a scalar kind, as the setter of the kind writes it. -/
def zeroValue {F S : Type} [Zero F] (k : Kind) : Stored F S :=
  if k = Kind.Bool then Stored.bool false
  else if k = Kind.Float32 || k = Kind.Float64 then Stored.float 0
  else if k = Kind.Int || k = Kind.Int8 || k = Kind.Int16 || k = Kind.Int32 || k = Kind.Int64
  then Stored.int 0
  else Stored.uint 0

/-- The number of bits of the integers and floats of a kind; `int` and `uint`
are parsed as 64-bit numbers. -/
def bitSize (k : Kind) : Nat :=
  if k = Kind.Int8 || k = Kind.Uint8 then 8
  else if k = Kind.Int16 || k = Kind.Uint16 then 16
  else if k = Kind.Int32 || k = Kind.Uint32 || k = Kind.Float32 then 32
  else 64

/-- The string `s` read as a value of the scalar kind `k` by the parser of
`strconv` for that kind, in base 10: the value as its setter writes it, and the
error. -/
def parseScalar {E F S : Type} (env : BindEnv E F S) (k : Kind) (s : Text) :
    Stored F S × Option E :=
  if k = Kind.Bool then ((Stored.bool (env.ParseBool s).1), (env.ParseBool s).2)
  else if k = Kind.Float32 || k = Kind.Float64 then
    (Stored.float (env.ParseFloat s (bitSize k)).1, (env.ParseFloat s (bitSize k)).2)
  else if k = Kind.Int || k = Kind.Int8 || k = Kind.Int16 || k = Kind.Int32 || k = Kind.Int64
  then (Stored.int (env.ParseInt s 10 (bitSize k)).1, (env.ParseInt s 10 (bitSize k)).2)
  else (Stored.uint (env.ParseUint s 10 (bitSize k)).1, (env.ParseUint s 10 (bitSize k)).2)

/-- The parsers of `strconv` on the empty string: each fails and gives the zero
value of its type. -/
def EmptyFails {E F S : Type} [Zero F] (env : BindEnv E F S) : Prop :=
  (∃ e, env.ParseBool [] = (false, some e)) ∧
  (∀ bits, ∃ e, env.ParseFloat [] bits = (0, some e)) ∧
  (∀ bits, ∃ e, env.ParseInt [] 10 bits = (0, some e)) ∧
  (∀ bits, ∃ e, env.ParseUint [] 10 bits = (0, some e))

/-- The decimal number written by a text of digits; an error on any other text. -/
def readDigits : Text → Nat → Option Nat
  | [], n => some n
  | c :: cs, n => if c.isDigit then readDigits cs (10 * n + (c.toNat - '0'.toNat)) else none

/-- An environment to try `bindStringSlice` in: the numbers are unsigned
decimals, the booleans `true` and `false`, an error is the text refused. -/
def sampleEnv : BindEnv Text ℤ Unit where
  ParseBool := fun s =>
    if s = ['t', 'r', 'u', 'e'] then (true, none)
    else if s = ['f', 'a', 'l', 's', 'e'] then (false, none)
    else (false, some s)
  ParseFloat := fun s _ =>
    match s, readDigits s 0 with
    | _ :: _, some n => ((n : ℤ), none)
    | _, _ => (0, some s)
  ParseInt := fun s _ _ =>
    match s, readDigits s 0 with
    | _ :: _, some n => ((n : ℤ), none)
    | _, _ => (0, some s)
  ParseUint := fun s _ _ =>
    match s, readDigits s 0 with
    | _ :: _, some n => (n, none)
    | _, _ => (0, some s)
  stringsToValue := fun _ _ => ((), false, some [])
  unsafeUnmarshalValue := fun s _ => (some s, none)

/-! # Properties -/

/-! ## Characters and lists -/

theorem char_eq_iff_toNat (c d : Char) : c = d ↔ c.toNat = d.toNat := by
  constructor
  · intro h; rw [h]
  · intro h
    apply Char.ext
    apply UInt32.ext
    exact h

theorem isSpace_of_isBlank (c : Char) (h : isBlank c = true) : isSpace c = true := by
  simp only [isBlank, Bool.or_eq_true, beq_iff_eq] at h
  rcases h with h | h <;> subst h <;> decide

theorem not_isSpace_of_isIdentChar (c : Char) (h : isIdentChar c = true) :
    isSpace c = false := by
  simp only [isIdentChar, inRange, Bool.or_eq_true, Bool.and_eq_true, decide_eq_true_eq,
    beq_iff_eq, char_eq_iff_toNat] at h
  simp only [isSpace, Bool.or_eq_false_iff, Bool.and_eq_false_iff, beq_eq_false_iff_ne, ne_eq,
    char_eq_iff_toNat, decide_eq_false_iff_not]
  have e1 : 'A'.toNat = 65 := rfl
  have e2 : 'Z'.toNat = 90 := rfl
  have e3 : 'a'.toNat = 97 := rfl
  have e4 : 'z'.toNat = 122 := rfl
  have e5 : '0'.toNat = 48 := rfl
  have e6 : '9'.toNat = 57 := rfl
  have e7 : '_'.toNat = 95 := rfl
  have e8 : '.'.toNat = 46 := rfl
  have e9 : '\t'.toNat = 9 := rfl
  have e10 : '\n'.toNat = 10 := rfl
  have e11 : '\r'.toNat = 13 := rfl
  have e12 : ' '.toNat = 32 := rfl
  rw [e1, e2, e3, e4, e5, e6, e7, e8] at h
  rw [e9, e10, e11, e12]
  omega

theorem isIdentChar_of_isIdentStart (c : Char) (h : isIdentStart c = true) :
    isIdentChar c = true := by
  simp only [isIdentStart, Bool.or_eq_true] at h
  simp only [isIdentChar, Bool.or_eq_true]
  tauto

theorem not_isBlank_of_isIdentChar (c : Char) (h : isIdentChar c = true) :
    isBlank c = false := by
  cases hb : isBlank c
  · rfl
  · have := not_isSpace_of_isIdentChar c h
    rw [isSpace_of_isBlank c hb] at this
    cases this

theorem takeWhile_append_stop {α : Type} (p : α → Bool) (l r : List α)
    (hl : ∀ x ∈ l, p x = true) (hr : ∀ x, r.head? = some x → p x = false) :
    (l ++ r).takeWhile p = l := by
  induction l with
  | nil =>
    cases r with
    | nil => rfl
    | cons y ys => simp [List.takeWhile, hr y rfl]
  | cons x xs ih =>
    have hx : p x = true := hl x (List.mem_cons_self x xs)
    rw [List.cons_append, List.takeWhile_cons, hx]
    simp only [if_true]
    rw [ih (fun y hy => hl y (List.mem_cons_of_mem x hy))]

theorem dropWhile_append_stop {α : Type} (p : α → Bool) (l r : List α)
    (hl : ∀ x ∈ l, p x = true) (hr : ∀ x, r.head? = some x → p x = false) :
    (l ++ r).dropWhile p = r := by
  induction l with
  | nil =>
    cases r with
    | nil => rfl
    | cons y ys => simp [List.dropWhile, hr y rfl]
  | cons x xs ih =>
    have hx : p x = true := hl x (List.mem_cons_self x xs)
    rw [List.cons_append, List.dropWhile_cons, hx]
    simp only [if_true]
    exact ih (fun y hy => hl y (List.mem_cons_of_mem x hy))

theorem all_takeWhile {α : Type} (p : α → Bool) (l : List α) :
    ∀ x ∈ l.takeWhile p, p x = true := by
  intro x hx
  exact List.mem_takeWhile_imp hx

/-! ## `strings.TrimSpace` on a padded field path -/

theorem trimSpace_padded (lead more trail : Text) (first : Char)
    (hl : ∀ x ∈ lead, isBlank x = true) (hf : isIdentStart first = true)
    (hm : ∀ x ∈ more, isIdentChar x = true) (ht : ∀ x ∈ trail, isBlank x = true) :
    trimSpace (lead ++ first :: (more ++ trail)) = first :: more := by
  have hfs : isSpace first = false :=
    not_isSpace_of_isIdentChar first (isIdentChar_of_isIdentStart first hf)
  unfold trimSpace
  rw [dropWhile_append_stop isSpace lead _ (fun x hx => isSpace_of_isBlank x (hl x hx))
    (by intro x hx; simp at hx; rw [← hx]; exact hfs)]
  have hrev : (first :: (more ++ trail)).reverse = trail.reverse ++ (first :: more).reverse := by
    simp
  rw [hrev, dropWhile_append_stop isSpace trail.reverse _
    (fun x hx => isSpace_of_isBlank x (ht x (List.mem_reverse.mp hx)))]
  · simp
  · intro x hx
    have hmem : x ∈ (first :: more).reverse := List.mem_of_mem_head? hx
    rw [List.mem_reverse, List.mem_cons] at hmem
    rcases hmem with h | h
    · rw [h]; exact hfs
    · exact not_isSpace_of_isIdentChar x (hm x h)

/-! ## The regular expression and the grammar -/

theorem FieldGroup.wf_iff (g : FieldGroup) :
    g.wf = true ↔ (∀ x ∈ g.lead, isBlank x = true) ∧ isIdentStart g.first = true ∧
      (∀ x ∈ g.more, isIdentChar x = true) ∧ (∀ x ∈ g.trail, isBlank x = true) := by
  simp only [FieldGroup.wf, Bool.and_eq_true, List.all_eq_true]
  tauto

theorem matchGroup_text (g : FieldGroup) (rest : Text) (hg : g.wf = true) :
    matchGroup (g.text ++ rest) = some (g.text, rest) := by
  obtain ⟨hl, hf, hm, ht⟩ := (FieldGroup.wf_iff g).mp hg
  have hfb : isBlank g.first = false :=
    not_isBlank_of_isIdentChar _ (isIdentChar_of_isIdentStart _ hf)
  have hclose : isBlank ')' = false := by decide
  have hclose2 : isIdentChar ')' = false := by decide
  have h1 : List.dropWhile isBlank (g.lead ++ g.first :: (g.more ++ (g.trail ++ [')'] ++ rest)))
      = g.first :: (g.more ++ (g.trail ++ [')'] ++ rest)) :=
    dropWhile_append_stop isBlank _ _ hl (by intro x hx; simp at hx; rw [← hx]; exact hfb)
  have h1t : List.takeWhile isBlank (g.lead ++ g.first :: (g.more ++ (g.trail ++ [')'] ++ rest)))
      = g.lead :=
    takeWhile_append_stop isBlank _ _ hl (by intro x hx; simp at hx; rw [← hx]; exact hfb)
  have hstop : ∀ x, (g.trail ++ [')'] ++ rest).head? = some x → isIdentChar x = false := by
    intro x hx
    cases htr : g.trail with
    | nil => rw [htr] at hx; simp at hx; rw [← hx]; exact hclose2
    | cons y ys =>
      rw [htr] at hx; simp at hx; rw [← hx]
      have hy : isBlank y = true := ht y (by rw [htr]; exact List.mem_cons_self y ys)
      cases hi : isIdentChar y
      · rfl
      · rw [not_isBlank_of_isIdentChar y hi] at hy; cases hy
  have h2 : List.dropWhile isIdentChar (g.more ++ (g.trail ++ [')'] ++ rest))
      = g.trail ++ [')'] ++ rest := dropWhile_append_stop isIdentChar _ _ hm hstop
  have h2t : List.takeWhile isIdentChar (g.more ++ (g.trail ++ [')'] ++ rest)) = g.more :=
    takeWhile_append_stop isIdentChar _ _ hm hstop
  have h3 : List.dropWhile isBlank (g.trail ++ [')'] ++ rest) = ')' :: rest := by
    rw [List.append_assoc]
    exact dropWhile_append_stop isBlank _ _ ht (by intro x hx; simp at hx; rw [← hx]; exact hclose)
  have h3t : List.takeWhile isBlank (g.trail ++ [')'] ++ rest) = g.trail := by
    rw [List.append_assoc]
    exact takeWhile_append_stop isBlank _ _ ht (by intro x hx; simp at hx; rw [← hx]; exact hclose)
  have hshape : g.text ++ rest
      = '(' :: (g.lead ++ g.first :: (g.more ++ (g.trail ++ [')'] ++ rest))) := by
    simp [FieldGroup.text]
  rw [hshape]
  simp only [matchGroup, if_true, h1, h1t, hf, h2, h2t, h3, h3t]
  simp [FieldGroup.text]

theorem matchGroup_some (s g rest : Text) (h : matchGroup s = some (g, rest)) :
    ∃ fg : FieldGroup, fg.wf = true ∧ g = fg.text ∧ s = g ++ rest := by
  unfold matchGroup at h
  cases s with
  | nil => simp at h
  | cons o s1 =>
    simp only at h
    split at h
    · rename_i ho
      split at h
      · cases h
      · rename_i c s3 hd
        split at h
        · rename_i hc
          split at h
          · cases h
          · rename_i e s6 hd2
            split at h
            · rename_i he
              simp only [Option.some.injEq, Prod.mk.injEq] at h
              obtain ⟨hg, hr⟩ := h
              refine ⟨⟨s1.takeWhile isBlank, c, s3.takeWhile isIdentChar,
                (s3.dropWhile isIdentChar).takeWhile isBlank⟩, ?_, ?_, ?_⟩
              · rw [FieldGroup.wf_iff]
                exact ⟨all_takeWhile _ _, hc, all_takeWhile _ _, all_takeWhile _ _⟩
              · rw [← hg]; rfl
              · rw [← hg, ← hr, ho]
                have e1 := List.takeWhile_append_dropWhile isBlank s1
                have e2 := List.takeWhile_append_dropWhile isIdentChar s3
                have e3 := List.takeWhile_append_dropWhile isBlank (s3.dropWhile isIdentChar)
                rw [hd2, he] at e3
                rw [hd] at e1
                simp only [List.cons_append, List.append_assoc, List.singleton_append,
                  List.nil_append]
                rw [e3, e2, e1]
            · cases h
        · cases h
    · cases h

theorem head_group_marker (g : Option FieldGroup) (tail : Text) (x : Char)
    (hx : (groupText g ++ '$' :: tail).head? = some x) : x = '(' ∨ x = '$' := by
  cases g with
  | none => simp [groupText] at hx; exact Or.inr hx.symm
  | some fg => simp [groupText, FieldGroup.text] at hx; exact Or.inl hx.symm

theorem selectorRegexp_grammar (mods : Text) (g : Option FieldGroup) (tail : Text)
    (hm : ∀ x ∈ mods, isModifier x = true) (hg : groupWf g = true)
    (ht : delimited tail = true) :
    selectorRegexp (mods ++ (groupText g ++ '$' :: tail)) =
      some ⟨mods ++ (groupText g ++ '$' :: tail.take 1), mods, groupText g, ['$'],
        tail.take 1⟩ := by
  have hstop : ∀ x, (groupText g ++ '$' :: tail).head? = some x → isModifier x = false := by
    intro x hx
    rcases head_group_marker g tail x hx with h | h <;> subst h <;> decide
  have hgrp : (match matchGroup (groupText g ++ '$' :: tail) with
      | some (a, b) => (a, b)
      | none => (([] : Text), groupText g ++ '$' :: tail)) = (groupText g, '$' :: tail) := by
    cases g with
    | none => simp [groupText, matchGroup]
    | some fg =>
      simp only [groupText]
      rw [matchGroup_text fg _ hg]
  unfold selectorRegexp
  simp only [takeWhile_append_stop isModifier mods _ hm hstop,
    dropWhile_append_stop isModifier mods _ hm hstop, hgrp, if_true]
  cases tail with
  | nil => simp
  | cons d ds =>
    have hd : isDelimiter d = true := by simpa [delimited] using ht
    simp [hd]

theorem selectorRegexp_some (raw : Text) (r : Submatch) (h : selectorRegexp raw = some r) :
    ∃ (mods : Text) (g : Option FieldGroup) (tail : Text),
      (∀ x ∈ mods, isModifier x = true) ∧ groupWf g = true ∧ delimited tail = true ∧
      raw = mods ++ (groupText g ++ '$' :: tail) := by
  have hsplit := List.takeWhile_append_dropWhile isModifier raw
  unfold selectorRegexp at h
  dsimp only at h
  have key : ∀ (grp rest : Text) (g : Option FieldGroup), groupText g = grp →
      groupWf g = true → raw.dropWhile isModifier = grp ++ rest →
      (match rest with
        | [] => none
        | m :: s3 =>
          if m = '$' then
            match s3 with
            | [] => some (Submatch.mk (raw.takeWhile isModifier ++ (grp ++ ['$']))
                (raw.takeWhile isModifier) grp ['$'] [])
            | d :: _ =>
              if isDelimiter d then
                some (Submatch.mk (raw.takeWhile isModifier ++ (grp ++ ['$', d]))
                  (raw.takeWhile isModifier) grp ['$'] [d])
              else none
          else none) = some r →
      ∃ (mods : Text) (g : Option FieldGroup) (tail : Text),
        (∀ x ∈ mods, isModifier x = true) ∧ groupWf g = true ∧ delimited tail = true ∧
        raw = mods ++ (groupText g ++ '$' :: tail) := by
    intro grp rest g hgt hgw hdrop hres
    cases rest with
    | nil => simp at hres
    | cons m s3 =>
      simp only at hres
      split at hres
      · rename_i hmark
        refine ⟨raw.takeWhile isModifier, g, s3, all_takeWhile _ _, hgw, ?_, ?_⟩
        · cases s3 with
          | nil => rfl
          | cons d ds =>
            simp only at hres
            split at hres
            · rename_i hd; simpa [delimited] using hd
            · cases hres
        · rw [hgt, ← hmark, ← hdrop, hsplit]
      · cases hres
  cases hmg : matchGroup (raw.dropWhile isModifier) with
  | none =>
    rw [hmg] at h
    exact key [] (raw.dropWhile isModifier) none rfl rfl (by simp) h
  | some gr =>
    obtain ⟨grp, rest⟩ := gr
    rw [hmg] at h
    obtain ⟨fg, hwf, hgeq, hseq⟩ := matchGroup_some _ _ _ hmg
    exact key grp rest (some fg) hgeq.symm hwf hseq h

theorem drop_to_tail (mods grp tail : Text) :
    (mods ++ (grp ++ '$' :: tail)).drop
      ((mods ++ (grp ++ '$' :: tail.take 1)).length - (tail.take 1).length) = tail := by
  have hlen : (mods ++ (grp ++ '$' :: tail.take 1)).length - (tail.take 1).length
      = (mods ++ (grp ++ ['$'])).length := by
    simp only [List.length_append, List.length_cons, List.length_nil]
    omega
  rw [hlen]
  have hre : mods ++ (grp ++ '$' :: tail) = (mods ++ (grp ++ ['$'])) ++ tail := by simp
  rw [hre, List.drop_left]

theorem field_of_group (g : Option FieldGroup) (hg : groupWf g = true) :
    (if (groupText g).length > 0 then
        trimSpace (((groupText g).drop 1).take ((groupText g).length - 1 - 1))
      else []) = groupField g := by
  cases g with
  | none => simp [groupText, groupField]
  | some fg =>
    obtain ⟨hl, hf, hm, ht⟩ := (FieldGroup.wf_iff fg).mp hg
    have hpos : (groupText (some fg)).length > 0 := by simp [groupText, FieldGroup.text]
    rw [if_pos hpos]
    have htake : ((groupText (some fg)).drop 1).take ((groupText (some fg)).length - 1 - 1)
        = fg.lead ++ fg.first :: (fg.more ++ fg.trail) := by
      simp only [groupText, FieldGroup.text, List.drop_succ_cons, List.drop_zero,
        List.length_cons, List.length_append, List.length_nil]
      have hre : fg.lead ++ fg.first :: (fg.more ++ (fg.trail ++ [')']))
          = (fg.lead ++ fg.first :: (fg.more ++ fg.trail)) ++ [')'] := by simp
      rw [hre]
      have hn : fg.lead.length + (fg.more.length + (fg.trail.length + (0 + 1)) + 1) + 1 - 1 - 1
          = (fg.lead ++ fg.first :: (fg.more ++ fg.trail)).length := by
        simp only [List.length_append, List.length_cons]
        omega
      rw [hn, List.take_left]
    rw [htake, trimSpace_padded fg.lead fg.more fg.trail fg.first hl hf hm ht]
    rfl

/-! ## The loop over the bracketed sub-expressions -/

theorem readBrackets_mono (rps : PairedReader) (fuel : Nat) :
    ∀ (cur : Text) (acc : List Text) (b : Brackets),
      readBrackets rps fuel cur acc = some b →
      ∀ more, fuel ≤ more → readBrackets rps more cur acc = some b := by
  induction fuel with
  | zero => intro cur acc b h; simp [readBrackets] at h
  | succ n ih =>
    intro cur acc b h more hle
    obtain ⟨m, rfl⟩ : ∃ m, more = m + 1 := ⟨more - 1, by omega⟩
    unfold readBrackets at h ⊢
    cases hr : rps cur with
    | none => rw [hr] at h; simpa using h
    | some pr =>
      obtain ⟨sub, rest⟩ := pr
      rw [hr] at h
      simp only at h ⊢
      split at h
      · rename_i hbad; rw [if_pos hbad]; exact h
      · rename_i hok; rw [if_neg hok]; exact ih _ _ _ h m (by omega)

theorem readBrackets_total (rps : PairedReader) (hs : Shrinks rps) (fuel : Nat) :
    ∀ (cur : Text) (acc : List Text), cur.length < fuel →
      ∃ b, readBrackets rps fuel cur acc = some b := by
  induction fuel with
  | zero => intro cur acc h; omega
  | succ n ih =>
    intro cur acc h
    unfold readBrackets
    cases hr : rps cur with
    | none => exact ⟨_, rfl⟩
    | some pr =>
      obtain ⟨sub, rest⟩ := pr
      simp only
      split
      · exact ⟨_, rfl⟩
      · have := hs cur sub rest hr
        exact ih rest _ (by omega)

theorem readBrackets_enough (rps : PairedReader) (hs : Shrinks rps) (fuel more : Nat)
    (cur : Text) (acc : List Text) (b : Brackets)
    (h : readBrackets rps fuel cur acc = some b) (hm : cur.length < more) :
    readBrackets rps more cur acc = some b := by
  obtain ⟨b2, h2⟩ := readBrackets_total rps hs more cur acc hm
  have e1 := readBrackets_mono rps fuel cur acc b h (max fuel more) (le_max_left _ _)
  have e2 := readBrackets_mono rps more cur acc b2 h2 (max fuel more) (le_max_right _ _)
  rw [e1] at e2
  rw [h2, ← Option.some.inj e2]

/-! ## `findSelector` on a text of the grammar -/

theorem findSelectorFuel_grammar (rps : PairedReader) (fuel : Nat) (mods : Text)
    (g : Option FieldGroup) (tail : Text)
    (hm : ∀ x ∈ mods, isModifier x = true) (hg : groupWf g = true)
    (ht : delimited tail = true) :
    findSelectorFuel rps fuel (mods ++ (groupText g ++ '$' :: tail)) =
      match readBrackets rps fuel tail [] with
      | none => none
      | some Brackets.rejected => some (notFound (mods ++ (groupText g ++ '$' :: tail)))
      | some (Brackets.done subSelector cur) =>
        if mods.length = 0 then
          some ⟨groupField g, ['$'], subSelector, none, false, true, cur⟩
        else if mods.any (fun u => mods.headD ' ' != u) then some (notFound cur)
        else if mods.headD ' ' = '!' then
          some ⟨groupField g, ['$'], subSelector, some (mods.length % 2 == 1), false, true, cur⟩
        else if mods.headD ' ' = '-' then
          some ⟨groupField g, ['$'], subSelector, none, mods.length % 2 == 1, true, cur⟩
        else if mods.headD ' ' = '+' then
          some ⟨groupField g, ['$'], subSelector, none, false, true, cur⟩
        else some (notFound cur) := by
  unfold findSelectorFuel findAllStringSubmatch
  rw [selectorRegexp_grammar mods g tail hm hg ht]
  simp only [Option.toList]
  rw [drop_to_tail, field_of_group g hg]

theorem findSelectorFuel_no_match (rps : PairedReader) (fuel : Nat) (raw : Text)
    (h : selectorRegexp raw = none) :
    findSelectorFuel rps fuel raw = some (notFound raw) := by
  unfold findSelectorFuel findAllStringSubmatch
  rw [h]
  rfl

theorem findSelector_total (rps : PairedReader) (hs : Shrinks rps) (raw : Text) :
    ∃ sel, findSelector rps raw = some sel := by
  unfold findSelector
  cases hre : selectorRegexp raw with
  | none => exact ⟨_, findSelectorFuel_no_match rps _ raw hre⟩
  | some r =>
    obtain ⟨mods, g, tail, hm, hg, ht, hraw⟩ := selectorRegexp_some raw r hre
    rw [hraw, findSelectorFuel_grammar rps _ mods g tail hm hg ht]
    obtain ⟨b, hb⟩ := readBrackets_total rps hs
      ((mods ++ (groupText g ++ '$' :: tail)).length + 1) tail []
      (by simp only [List.length_append, List.length_cons]; omega)
    rw [hb]
    cases b with
    | rejected => exact ⟨_, rfl⟩
    | done subs cur =>
      simp only
      split
      · exact ⟨_, rfl⟩
      · split
        · exact ⟨_, rfl⟩
        · split
          · exact ⟨_, rfl⟩
          · split
            · exact ⟨_, rfl⟩
            · split <;> exact ⟨_, rfl⟩

theorem findSelectorFuel_flags (rps : PairedReader) (fuel : Nat) (raw : Text) (sel : Selector)
    (h : findSelectorFuel rps fuel raw = some sel) :
    sel.boolOpposite = none ∨ sel.floatOpposite = false := by
  unfold findSelectorFuel at h
  split at h
  · dsimp only at h
    split at h
    · cases h
    · cases h; exact Or.inl rfl
    · split at h
      · cases h; exact Or.inl rfl
      · split at h
        · cases h; exact Or.inl rfl
        · split at h
          · cases h; exact Or.inr rfl
          · split at h
            · cases h; exact Or.inl rfl
            · split at h <;> cases h <;> exact Or.inl rfl
  · cases h; exact Or.inl rfl

/-! ## The modelled reader -/

theorem scanPaired_consumes (left right : Char) :
    ∀ (s : Text) (depth : Nat) (acc sub rest : Text),
      scanPaired left right depth acc s = some (sub, rest) →
      ∃ chunk, chunk ≠ [] ∧ s = chunk ++ rest := by
  intro s
  induction s with
  | nil => intro depth acc sub rest h; simp [scanPaired] at h
  | cons c cs ih =>
    intro depth acc sub rest h
    have step : ∀ d a, scanPaired left right d a cs = some (sub, rest) →
        ∃ chunk, chunk ≠ [] ∧ c :: cs = chunk ++ rest := by
      intro d a hd
      obtain ⟨chunk, _, hcs⟩ := ih d a sub rest hd
      exact ⟨c :: chunk, by simp, by rw [hcs]; rfl⟩
    unfold scanPaired at h
    split at h
    · cases depth with
      | zero =>
        simp only [Option.some.injEq, Prod.mk.injEq] at h
        exact ⟨[c], by simp, by rw [h.2]; rfl⟩
      | succ d => exact step _ _ h
    · split at h
      · exact step _ _ h
      · exact step _ _ h

theorem readPairedSymbol_consumes (left right : Char) :
    Consumes (readPairedSymbol left right) := by
  intro s sub rest h
  unfold readPairedSymbol at h
  cases s with
  | nil => simp at h
  | cons c cs =>
    simp only at h
    split at h
    · obtain ⟨chunk, _, hcs⟩ := scanPaired_consumes left right cs 0 [] sub rest h
      exact ⟨c :: chunk, by simp, by rw [hcs]; rfl⟩
    · cases h

theorem shrinks_of_consumes (rps : PairedReader) (h : Consumes rps) : Shrinks rps := by
  intro s sub rest hr
  obtain ⟨chunk, hne, hs⟩ := h s sub rest hr
  have : 0 < chunk.length := List.length_pos.mpr hne
  rw [hs, List.length_append]
  omega

theorem readPairedSymbol_shrinks (left right : Char) :
    Shrinks (readPairedSymbol left right) :=
  shrinks_of_consumes _ (readPairedSymbol_consumes left right)

/-! ## Modifier runs -/

theorem any_differs_replicate (n : Nat) (c : Char) :
    (List.replicate n c).any (fun u => (List.replicate n c).headD ' ' != u) = false := by
  rw [List.any_eq_false]
  intro x hx
  have hxc : x = c := List.eq_of_mem_replicate hx
  cases n with
  | zero => simp at hx
  | succ m => simp [List.replicate_succ, hxc]

theorem any_differs_of_mixed (mods : Text) (a b : Char) (ha : a ∈ mods) (hb : b ∈ mods)
    (hab : a ≠ b) : mods.any (fun u => mods.headD ' ' != u) = true := by
  rw [List.any_eq_true]
  by_cases h : mods.headD ' ' = a
  · exact ⟨b, hb, by rw [h]; simpa using hab⟩
  · exact ⟨a, ha, by simpa using h⟩

theorem findSelector_replicate (rps : PairedReader) (hs : Shrinks rps) (c : Char) (n : Nat)
    (g : Option FieldGroup) (tail : Text) (fuel : Nat) (subs : List Text) (cur : Text)
    (hc : isModifier c = true) (hg : groupWf g = true) (ht : delimited tail = true)
    (hb : readBrackets rps fuel tail [] = some (Brackets.done subs cur)) :
    findSelector rps (List.replicate n c ++ (groupText g ++ '$' :: tail)) =
      if n = 0 then some ⟨groupField g, ['$'], subs, none, false, true, cur⟩
      else if c = '!' then some ⟨groupField g, ['$'], subs, some (n % 2 == 1), false, true, cur⟩
      else if c = '-' then some ⟨groupField g, ['$'], subs, none, n % 2 == 1, true, cur⟩
      else some ⟨groupField g, ['$'], subs, none, false, true, cur⟩ := by
  have hm : ∀ x ∈ List.replicate n c, isModifier x = true := by
    intro x hx; rw [List.eq_of_mem_replicate hx]; exact hc
  unfold findSelector
  rw [findSelectorFuel_grammar rps _ _ g tail hm hg ht]
  rw [readBrackets_enough rps hs fuel _ tail [] _ hb
    (by simp only [List.length_append, List.length_cons]; omega)]
  simp only [any_differs_replicate, List.length_replicate]
  cases n with
  | zero => simp
  | succ k =>
    have hhead : (List.replicate (k + 1) c).headD ' ' = c := by simp [List.replicate_succ]
    rw [hhead]
    have hplus : ¬ c = '!' → ¬ c = '-' → c = '+' := by
      intro h1 h2
      simp only [isModifier, Bool.or_eq_true, beq_iff_eq] at hc
      tauto
    by_cases h1 : c = '!'
    · simp [h1]
    · by_cases h2 : c = '-'
      · simp [h2]
      · simp [h1, h2, hplus h1 h2]

/-- C1 (the code departs from the claim): on the text `!-$`, whose modifier run is
mixed, `findSelector` reports not found and yet leaves the cursor behind the
marker instead of on the original text.  Holds for every reader that answers nil
on the empty text. -/
theorem findSelector_mixed_run_moves_cursor (rps : PairedReader) (hnil : rps [] = none) :
    findSelector rps ['!', '-', '$'] = some (notFound []) ∧
      (notFound []).found = false ∧ (notFound []).expr ≠ ['!', '-', '$'] := by
  refine ⟨?_, rfl, by decide⟩
  have h := findSelectorFuel_grammar rps 4 ['!', '-'] none [] (by decide) rfl rfl
  simp only [groupText, List.nil_append] at h
  unfold findSelector
  show findSelectorFuel rps 4 (['!', '-'] ++ ['$']) = _
  rw [h]
  simp [readBrackets, hnil]

/-- Witness for C1: the modelled reader answers nil on the empty text. -/
theorem findSelector_mixed_run_moves_cursor_witness :
    readPairedSymbol '[' ']' [] = none ∧
      findSelector (readPairedSymbol '[' ']') ['!', '-', '$'] = some (notFound []) ∧
      (notFound []).found = false ∧ (notFound []).expr ≠ ['!', '-', '$'] :=
  ⟨rfl, findSelector_mixed_run_moves_cursor (readPairedSymbol '[' ']') rfl⟩

/-- C2: on a text of the selector grammar whose bracketed sub-expressions are all
read and accepted, a run of `n ≥ 1` equal modifier characters makes `findSelector`
succeed with flags fixed by the character and the parity of `n`: for `!` the
boolean flag is present and equals "n is odd" and the float flag is false; for `-`
the boolean flag is absent and the float flag equals "n is odd"; for `+` the
boolean flag is absent and the float flag is false.  Without modifiers both are
absent/false, and no outcome of `findSelector` has both flags set. -/
theorem findSelector_modifier_parity (rps : PairedReader) (hs : Shrinks rps)
    (g : Option FieldGroup) (tail : Text) (fuel : Nat) (subs : List Text) (cur : Text)
    (hg : groupWf g = true) (ht : delimited tail = true)
    (hb : readBrackets rps fuel tail [] = some (Brackets.done subs cur)) :
    (∀ n, 1 ≤ n →
      findSelector rps (List.replicate n '!' ++ (groupText g ++ '$' :: tail)) =
        some ⟨groupField g, ['$'], subs, some (n % 2 == 1), false, true, cur⟩ ∧
      findSelector rps (List.replicate n '-' ++ (groupText g ++ '$' :: tail)) =
        some ⟨groupField g, ['$'], subs, none, n % 2 == 1, true, cur⟩ ∧
      findSelector rps (List.replicate n '+' ++ (groupText g ++ '$' :: tail)) =
        some ⟨groupField g, ['$'], subs, none, false, true, cur⟩) ∧
    findSelector rps (groupText g ++ '$' :: tail) =
      some ⟨groupField g, ['$'], subs, none, false, true, cur⟩ ∧
    (∀ raw sel, findSelector rps raw = some sel →
      ¬ (sel.boolOpposite.isSome = true ∧ sel.floatOpposite = true)) := by
  refine ⟨?_, ?_, ?_⟩
  · intro n hn
    have hn0 : ¬ n = 0 := by omega
    refine ⟨?_, ?_, ?_⟩
    · rw [findSelector_replicate rps hs '!' n g tail fuel subs cur (by decide) hg ht hb]
      simp [hn0]
    · rw [findSelector_replicate rps hs '-' n g tail fuel subs cur (by decide) hg ht hb]
      simp [hn0]
    · rw [findSelector_replicate rps hs '+' n g tail fuel subs cur (by decide) hg ht hb]
      simp [hn0]
  · have h := findSelector_replicate rps hs '!' 0 g tail fuel subs cur (by decide) hg ht hb
    simpa using h
  · intro raw sel h
    rcases findSelectorFuel_flags rps _ raw sel h with h1 | h1 <;> simp [h1]

/-- Witness for C2: the text `( A )$[x]>1` read with the modelled reader. -/
theorem findSelector_modifier_parity_witness :
    Shrinks (readPairedSymbol '[' ']') ∧
    groupWf (some ⟨[' '], 'A', [], [' ']⟩) = true ∧
    delimited ['[', 'x', ']', '>', '1'] = true ∧
    readBrackets (readPairedSymbol '[' ']') 2 ['[', 'x', ']', '>', '1'] [] =
      some (Brackets.done [['x']] ['>', '1']) ∧
    ((∀ n, 1 ≤ n →
      findSelector (readPairedSymbol '[' ']')
          (List.replicate n '!' ++
            (groupText (some ⟨[' '], 'A', [], [' ']⟩) ++ '$' :: ['[', 'x', ']', '>', '1'])) =
        some ⟨groupField (some ⟨[' '], 'A', [], [' ']⟩), ['$'], [['x']], some (n % 2 == 1),
          false, true, ['>', '1']⟩ ∧
      findSelector (readPairedSymbol '[' ']')
          (List.replicate n '-' ++
            (groupText (some ⟨[' '], 'A', [], [' ']⟩) ++ '$' :: ['[', 'x', ']', '>', '1'])) =
        some ⟨groupField (some ⟨[' '], 'A', [], [' ']⟩), ['$'], [['x']], none, n % 2 == 1,
          true, ['>', '1']⟩ ∧
      findSelector (readPairedSymbol '[' ']')
          (List.replicate n '+' ++
            (groupText (some ⟨[' '], 'A', [], [' ']⟩) ++ '$' :: ['[', 'x', ']', '>', '1'])) =
        some ⟨groupField (some ⟨[' '], 'A', [], [' ']⟩), ['$'], [['x']], none, false,
          true, ['>', '1']⟩) ∧
    findSelector (readPairedSymbol '[' ']')
        (groupText (some ⟨[' '], 'A', [], [' ']⟩) ++ '$' :: ['[', 'x', ']', '>', '1']) =
      some ⟨groupField (some ⟨[' '], 'A', [], [' ']⟩), ['$'], [['x']], none, false, true,
        ['>', '1']⟩ ∧
    (∀ raw sel, findSelector (readPairedSymbol '[' ']') raw = some sel →
      ¬ (sel.boolOpposite.isSome = true ∧ sel.floatOpposite = true))) :=
  ⟨readPairedSymbol_shrinks '[' ']', by decide, by decide, by decide,
    findSelector_modifier_parity (readPairedSymbol '[' ']') (readPairedSymbol_shrinks '[' ']')
      (some ⟨[' '], 'A', [], [' ']⟩) ['[', 'x', ']', '>', '1'] 2 [['x']] ['>', '1']
      (by decide) (by decide) (by decide)⟩

/-! ## Rejected brackets and mixed modifier runs -/

theorem split_at_first {α : Type} (a : α) :
    ∀ (l1 l2 t1 t2 : List α), a ∉ l1 → a ∉ l2 → l1 ++ a :: t1 = l2 ++ a :: t2 →
      l1 = l2 ∧ t1 = t2 := by
  intro l1
  induction l1 with
  | nil =>
    intro l2 t1 t2 _ h2 h
    cases l2 with
    | nil => simp at h; exact ⟨rfl, h⟩
    | cons y ys =>
      simp at h
      exact absurd (h.1 ▸ List.mem_cons_self y ys) h2
  | cons x xs ih =>
    intro l2 t1 t2 h1 h2 h
    cases l2 with
    | nil =>
      simp at h
      exact absurd (h.1 ▸ List.mem_cons_self x xs) h1
    | cons y ys =>
      simp only [List.cons_append, List.cons.injEq] at h
      obtain ⟨e1, e2⟩ := ih ys t1 t2 (fun hm => h1 (List.mem_cons_of_mem x hm))
        (fun hm => h2 (List.mem_cons_of_mem y hm)) h.2
      exact ⟨by rw [h.1, e1], e2⟩

theorem marker_not_in_group (g : Option FieldGroup) (hg : groupWf g = true) :
    '$' ∉ groupText g := by
  cases g with
  | none => simp [groupText]
  | some fg =>
    obtain ⟨hl, hf, hm, ht⟩ := (FieldGroup.wf_iff fg).mp hg
    intro hmem
    simp only [groupText, FieldGroup.text, List.mem_cons, List.mem_append, List.mem_singleton,
      List.not_mem_nil, or_false] at hmem
    have hb : isBlank '$' = false := by decide
    have hi : isIdentChar '$' = false := by decide
    rcases hmem with h | h | h | h | h | h
    · exact absurd h (by decide)
    · rw [hl _ h] at hb; cases hb
    · rw [h, isIdentChar_of_isIdentStart _ hf] at hi; cases hi
    · rw [hm _ h] at hi; cases hi
    · rw [ht _ h] at hb; cases hb
    · exact absurd h (by decide)

theorem marker_not_in_mods (mods : Text) (hm : ∀ x ∈ mods, isModifier x = true) :
    '$' ∉ mods := by
  intro h
  have := hm _ h
  revert this
  decide

theorem readBrackets_bad_pair (rps : PairedReader) (hs : Shrinks rps) (cur : Text)
    (hbad : BadPairAhead rps cur) :
    ∀ (fuel : Nat) (acc : List Text), cur.length < fuel →
      readBrackets rps fuel cur acc = some Brackets.rejected := by
  induction hbad with
  | here cur sub rest hread hbad =>
    intro fuel acc hlt
    obtain ⟨n, rfl⟩ : ∃ n, fuel = n + 1 := ⟨fuel - 1, by omega⟩
    rw [readBrackets, hread]
    simp only [if_pos hbad]
  | later cur sub rest hread _ ih =>
    intro fuel acc hlt
    obtain ⟨n, rfl⟩ : ∃ n, fuel = n + 1 := ⟨fuel - 1, by omega⟩
    have hshort := hs cur sub rest hread
    rw [readBrackets, hread]
    by_cases hsub : sub = [] ∨ sub.head? = some '['
    · simp only [if_pos hsub]
    · simp only [if_neg hsub]
      exact ih n _ (by omega)

/-- C6: when the marker is directly followed by bracket pairs of which one, as the
reader reads them in turn, has an empty content or a content starting with `[`,
`findSelector` reports not found with an empty field, an empty name, no
sub-expression and no negation flag, and the cursor is the original text again. -/
theorem findSelector_rejects_bad_bracket (rps : PairedReader) (hs : Shrinks rps)
    (before tail : Text) (hbefore : '$' ∉ before) (hbad : BadPairAhead rps tail) :
    findSelector rps (before ++ '$' :: tail) =
      some ⟨[], [], [], none, false, false, before ++ '$' :: tail⟩ := by
  cases hre : selectorRegexp (before ++ '$' :: tail) with
  | none => exact findSelectorFuel_no_match rps _ _ hre
  | some r =>
    obtain ⟨mods, g, tl, hm, hg, ht, hraw⟩ := selectorRegexp_some _ r hre
    have hnot : '$' ∉ mods ++ groupText g := by
      intro h
      rcases List.mem_append.mp h with h | h
      · exact marker_not_in_mods mods hm h
      · exact marker_not_in_group g hg h
    have hraw2 : before ++ '$' :: tail = (mods ++ groupText g) ++ '$' :: tl := by
      rw [hraw]; simp
    obtain ⟨_, htl⟩ := split_at_first '$' _ _ _ _ hbefore hnot hraw2
    unfold findSelector
    rw [hraw, findSelectorFuel_grammar rps _ mods g tl hm hg ht, ← htl]
    rw [readBrackets_bad_pair rps hs tail hbad _ []
      (by rw [htl]; simp only [List.length_append, List.length_cons]; omega)]
    rfl

/-- Witness for C6: the texts `$[]`, whose pair is empty, `$[[x]]`, whose pair
starts with `[`, and `$[a][]`, whose second pair is empty after a first that is
accepted, each read with the modelled reader. -/
theorem findSelector_rejects_bad_bracket_witness :
    Shrinks (readPairedSymbol '[' ']') ∧ '$' ∉ ([] : Text) ∧
    BadPairAhead (readPairedSymbol '[' ']') ['[', ']'] ∧
    BadPairAhead (readPairedSymbol '[' ']') ['[', '[', 'x', ']', ']'] ∧
    BadPairAhead (readPairedSymbol '[' ']') ['[', 'a', ']', '[', ']'] ∧
    findSelector (readPairedSymbol '[' ']') ([] ++ '$' :: ['[', ']']) =
      some ⟨[], [], [], none, false, false, [] ++ '$' :: ['[', ']']⟩ ∧
    findSelector (readPairedSymbol '[' ']') ([] ++ '$' :: ['[', '[', 'x', ']', ']']) =
      some ⟨[], [], [], none, false, false, [] ++ '$' :: ['[', '[', 'x', ']', ']']⟩ ∧
    findSelector (readPairedSymbol '[' ']') ([] ++ '$' :: ['[', 'a', ']', '[', ']']) =
      some ⟨[], [], [], none, false, false, [] ++ '$' :: ['[', 'a', ']', '[', ']']⟩ :=
  have hempty : BadPairAhead (readPairedSymbol '[' ']') ['[', ']'] :=
    BadPairAhead.here ['[', ']'] [] [] rfl (Or.inl rfl)
  have hnested : BadPairAhead (readPairedSymbol '[' ']') ['[', '[', 'x', ']', ']'] :=
    BadPairAhead.here ['[', '[', 'x', ']', ']'] ['[', 'x', ']'] [] rfl (Or.inr rfl)
  have hsecond : BadPairAhead (readPairedSymbol '[' ']') ['[', 'a', ']', '[', ']'] :=
    BadPairAhead.later ['[', 'a', ']', '[', ']'] ['a'] ['[', ']'] rfl hempty
  ⟨readPairedSymbol_shrinks '[' ']', by decide, hempty, hnested, hsecond,
    findSelector_rejects_bad_bracket (readPairedSymbol '[' ']')
      (readPairedSymbol_shrinks '[' ']') [] ['[', ']'] (by decide) hempty,
    findSelector_rejects_bad_bracket (readPairedSymbol '[' ']')
      (readPairedSymbol_shrinks '[' ']') [] ['[', '[', 'x', ']', ']'] (by decide) hnested,
    findSelector_rejects_bad_bracket (readPairedSymbol '[' ']')
      (readPairedSymbol_shrinks '[' ']') [] ['[', 'a', ']', '[', ']'] (by decide) hsecond⟩

/-- C8: on a text of the selector grammar whose modifier run holds two different
characters, `findSelector` fails: found is false, field and name are empty, there
is no sub-expression and no negation flag is set. -/
theorem findSelector_mixed_run_fails (rps : PairedReader) (hs : Shrinks rps)
    (mods : Text) (g : Option FieldGroup) (tail : Text) (a b : Char)
    (hm : ∀ x ∈ mods, isModifier x = true) (hg : groupWf g = true)
    (ht : delimited tail = true) (ha : a ∈ mods) (hb : b ∈ mods) (hab : a ≠ b) :
    ∃ sel, findSelector rps (mods ++ (groupText g ++ '$' :: tail)) = some sel ∧
      sel.found = false ∧ sel.field = [] ∧ sel.name = [] ∧ sel.subSelector = [] ∧
      sel.boolOpposite = none ∧ sel.floatOpposite = false := by
  have hlen : ¬ mods.length = 0 := by
    intro h
    rw [List.length_eq_zero] at h
    rw [h] at ha
    cases ha
  unfold findSelector
  rw [findSelectorFuel_grammar rps _ mods g tail hm hg ht]
  obtain ⟨br, hbr⟩ := readBrackets_total rps hs
    ((mods ++ (groupText g ++ '$' :: tail)).length + 1) tail []
    (by simp only [List.length_append, List.length_cons]; omega)
  rw [hbr]
  cases br with
  | rejected => exact ⟨_, rfl, rfl, rfl, rfl, rfl, rfl, rfl⟩
  | done subs cur =>
    simp only [if_neg hlen, any_differs_of_mixed mods a b ha hb hab, if_true]
    exact ⟨_, rfl, rfl, rfl, rfl, rfl, rfl, rfl⟩

/-- Witness for C8: the text `+-(A)$ ` read with the modelled reader. -/
theorem findSelector_mixed_run_fails_witness :
    Shrinks (readPairedSymbol '[' ']') ∧
    (∀ x ∈ ['+', '-'], isModifier x = true) ∧
    groupWf (some ⟨[], 'A', [], []⟩) = true ∧ delimited [' '] = true ∧
    '+' ∈ ['+', '-'] ∧ '-' ∈ ['+', '-'] ∧ '+' ≠ '-' ∧
    ∃ sel, findSelector (readPairedSymbol '[' ']')
        (['+', '-'] ++ (groupText (some ⟨[], 'A', [], []⟩) ++ '$' :: [' '])) = some sel ∧
      sel.found = false ∧ sel.field = [] ∧ sel.name = [] ∧ sel.subSelector = [] ∧
      sel.boolOpposite = none ∧ sel.floatOpposite = false :=
  ⟨readPairedSymbol_shrinks '[' ']', by decide, by decide, by decide, by decide, by decide,
    by decide,
    findSelector_mixed_run_fails (readPairedSymbol '[' ']') (readPairedSymbol_shrinks '[' ']')
      ['+', '-'] (some ⟨[], 'A', [], []⟩) [' '] '+' '-' (by decide) (by decide) (by decide)
      (by decide) (by decide) (by decide)⟩

/-! ## What a successful call consumes -/

theorem readBrackets_pairs (rps : PairedReader) (hc : Consumes rps) (fuel : Nat) :
    ∀ (cur : Text) (acc subs : List Text) (out : Text),
      readBrackets rps fuel cur acc = some (Brackets.done subs out) →
      ∃ pairs : List (Text × Text), cur = consumedText pairs ++ out ∧
        ReadsPairs rps pairs out ∧ subs = acc ++ pairs.map (fun p => trimSpace p.2) := by
  induction fuel with
  | zero => intro cur acc subs out h; simp [readBrackets] at h
  | succ n ih =>
    intro cur acc subs out h
    unfold readBrackets at h
    cases hr : rps cur with
    | none =>
      rw [hr] at h
      simp only [Option.some.injEq, Brackets.done.injEq] at h
      refine ⟨[], ?_, ?_, ?_⟩
      · rw [← h.2]; rfl
      · rw [← h.2]; exact hr
      · rw [← h.1]; simp
    | some pr =>
      obtain ⟨sub, rest⟩ := pr
      rw [hr] at h
      simp only at h
      split at h
      · cases h
      · rename_i hok
        obtain ⟨pairs, hrest, hreads, hsubs⟩ := ih rest _ subs out h
        obtain ⟨chunk, hne, hcur⟩ := hc cur sub rest hr
        refine ⟨(chunk, sub) :: pairs, ?_, ?_, ?_⟩
        · rw [hcur, hrest]; simp [consumedText]
        · refine ⟨hne, ?_, hok, hreads⟩
          show rps (chunk ++ (consumedText pairs ++ out)) = _
          rw [← hrest, ← hcur, hr]
        · rw [hsubs]; simp

/-- C7: when `findSelector` succeeds, the original text is the modifier run, the
optional parenthesised field path, the marker, the bracket pairs the reader read
one after the other, and then the cursor it leaves, which is therefore a suffix
of the original text.  What follows the marker starts with a delimiter (or is
empty), so a delimiter that is not a bracket pair stays in the cursor; the field
returned is the parenthesised path without its surrounding blanks, and the
sub-expressions are the trimmed contents of the pairs. -/
theorem findSelector_consumed (rps : PairedReader) (hc : Consumes rps) (raw : Text)
    (sel : Selector) (h : findSelector rps raw = some sel) (hf : sel.found = true) :
    sel.expr <:+ raw ∧
    ∃ (mods : Text) (g : Option FieldGroup) (pairs : List (Text × Text)),
      raw = mods ++ (groupText g ++ '$' :: (consumedText pairs ++ sel.expr)) ∧
      (∀ x ∈ mods, isModifier x = true) ∧ groupWf g = true ∧
      delimited (consumedText pairs ++ sel.expr) = true ∧
      ReadsPairs rps pairs sel.expr ∧
      sel.field = groupField g ∧ sel.name = ['$'] ∧
      sel.subSelector = pairs.map (fun p => trimSpace p.2) := by
  unfold findSelector at h
  cases hre : selectorRegexp raw with
  | none =>
    rw [findSelectorFuel_no_match rps _ raw hre] at h
    cases h
    cases hf
  | some r =>
    obtain ⟨mods, g, tail, hm, hg, ht, hraw⟩ := selectorRegexp_some raw r hre
    rw [hraw, findSelectorFuel_grammar rps _ mods g tail hm hg ht] at h
    cases hbr : readBrackets rps ((mods ++ (groupText g ++ '$' :: tail)).length + 1) tail [] with
    | none => rw [hbr] at h; cases h
    | some br =>
      rw [hbr] at h
      cases br with
      | rejected => cases h; cases hf
      | done subs cur =>
        simp only at h
        have key : sel.field = groupField g ∧ sel.name = ['$'] ∧ sel.subSelector = subs ∧
            sel.expr = cur := by
          split at h
          · cases h; exact ⟨rfl, rfl, rfl, rfl⟩
          · split at h
            · cases h; cases hf
            · split at h
              · cases h; exact ⟨rfl, rfl, rfl, rfl⟩
              · split at h
                · cases h; exact ⟨rfl, rfl, rfl, rfl⟩
                · split at h
                  · cases h; exact ⟨rfl, rfl, rfl, rfl⟩
                  · cases h; cases hf
        obtain ⟨hfield, hname, hsubs, hexpr⟩ := key
        obtain ⟨pairs, htail, hreads, hmap⟩ := readBrackets_pairs rps hc _ tail [] subs cur hbr
        rw [← hexpr] at htail hreads
        have hshape : raw = mods ++ (groupText g ++ '$' :: (consumedText pairs ++ sel.expr)) := by
          rw [hraw, htail]
        refine ⟨?_, mods, g, pairs, hshape, hm, hg, ?_, hreads, hfield, hname, ?_⟩
        · refine ⟨mods ++ (groupText g ++ '$' :: consumedText pairs), ?_⟩
          rw [hshape]
          simp
        · rw [← htail]; exact ht
        · rw [hsubs, hmap]; simp

/-- Witness for C7: the text `(f.g)$>0 && $` of the test program, on which the
field is `f.g` and the cursor left is `>0 && $`. -/
theorem findSelector_consumed_witness :
    Consumes (readPairedSymbol '[' ']') ∧
    findSelector (readPairedSymbol '[' ']')
        ['(', 'f', '.', 'g', ')', '$', '>', '0', ' ', '&', '&', ' ', '$'] =
      some ⟨['f', '.', 'g'], ['$'], [], none, false, true,
        ['>', '0', ' ', '&', '&', ' ', '$']⟩ ∧
    (['>', '0', ' ', '&', '&', ' ', '$'] : Text) <:+
      ['(', 'f', '.', 'g', ')', '$', '>', '0', ' ', '&', '&', ' ', '$'] ∧
    ∃ (mods : Text) (g : Option FieldGroup) (pairs : List (Text × Text)),
      (['(', 'f', '.', 'g', ')', '$', '>', '0', ' ', '&', '&', ' ', '$'] : Text) =
        mods ++ (groupText g ++ '$' ::
          (consumedText pairs ++ ['>', '0', ' ', '&', '&', ' ', '$'])) ∧
      (∀ x ∈ mods, isModifier x = true) ∧ groupWf g = true ∧
      delimited (consumedText pairs ++ ['>', '0', ' ', '&', '&', ' ', '$']) = true ∧
      ReadsPairs (readPairedSymbol '[' ']') pairs ['>', '0', ' ', '&', '&', ' ', '$'] ∧
      (['f', '.', 'g'] : Text) = groupField g ∧ (['$'] : Text) = ['$'] ∧
      ([] : List Text) = pairs.map (fun p => trimSpace p.2) :=
  ⟨readPairedSymbol_consumes '[' ']', by decide,
    findSelector_consumed (readPairedSymbol '[' ']') (readPairedSymbol_consumes '[' ']')
      ['(', 'f', '.', 'g', ')', '$', '>', '0', ' ', '&', '&', ' ', '$']
      ⟨['f', '.', 'g'], ['$'], [], none, false, true, ['>', '0', ' ', '&', '&', ' ', '$']⟩
      (by decide) rfl⟩

/-! ## Evaluation of a selector -/

theorem findSelector_bare (rps : PairedReader) (hnil : rps [] = none)
    (mods : Text) (g : Option FieldGroup) (hm : ∀ x ∈ mods, isModifier x = true)
    (hg : groupWf g = true) :
    findSelector rps (mods ++ (groupText g ++ ['$'])) =
      (if mods.length = 0 then
          some ⟨groupField g, ['$'], [], none, false, true, []⟩
        else if mods.any (fun u => mods.headD ' ' != u) then some (notFound [])
        else if mods.headD ' ' = '!' then
          some ⟨groupField g, ['$'], [], some (mods.length % 2 == 1), false, true, []⟩
        else if mods.headD ' ' = '-' then
          some ⟨groupField g, ['$'], [], none, mods.length % 2 == 1, true, []⟩
        else if mods.headD ' ' = '+' then
          some ⟨groupField g, ['$'], [], none, false, true, []⟩
        else some (notFound [])) := by
  unfold findSelector
  rw [findSelectorFuel_grammar rps _ mods g [] hm hg rfl]
  simp [readBrackets, hnil]

/-- C3: `Run` resolves the selector's own field when it is not empty and the
current field path otherwise.  So a node with a field and no sub-expression, as
read from `(A)$`, gives the same result for every current field path, and the
node read from `$`, run for the field `f.g`, resolves `f.g`. -/
theorem run_effective_field {F : Type} [Neg F]
    (realValue : Value F → Option Bool → Value F) (tagExpr : TagExpr F) :
    (∀ (ve : selectorExprNode F) (currField : Text), ve.field ≠ [] →
      ve.Run realValue currField tagExpr =
        ve.opposite realValue (tagExpr.getValue ve.field (ve.subFields currField tagExpr))) ∧
    (∀ (ve : selectorExprNode F) (currField : Text), ve.field = [] →
      ve.Run realValue currField tagExpr =
        ve.opposite realValue (tagExpr.getValue currField (ve.subFields currField tagExpr))) ∧
    (∀ (ve : selectorExprNode F) (c1 c2 : Text), ve.field ≠ [] → ve.subExprs = [] →
      ve.Run realValue c1 tagExpr = ve.Run realValue c2 tagExpr) ∧
    (∀ (rps : PairedReader) (parseExprNode : Text → Option (ExprNode F)), rps [] = none →
      readSelectorExprNode rps parseExprNode ['(', 'A', ')', '$'] =
        some (some ⟨['A'], ['$'], [], none, false⟩, []) ∧
      readSelectorExprNode rps parseExprNode ['$'] =
        some (some ⟨[], ['$'], [], none, false⟩, []) ∧
      (∀ currField, (⟨['A'], ['$'], [], none, false⟩ : selectorExprNode F).Run realValue
          currField tagExpr = realValue (tagExpr.getValue ['A'] []) none) ∧
      (⟨[], ['$'], [], none, false⟩ : selectorExprNode F).Run realValue ['f', '.', 'g']
          tagExpr = realValue (tagExpr.getValue ['f', '.', 'g'] []) none) := by
  refine ⟨?_, ?_, ?_, ?_⟩
  · intro ve currField h
    simp [selectorExprNode.Run, h]
  · intro ve currField h
    simp [selectorExprNode.Run, h]
  · intro ve c1 c2 h hs
    simp [selectorExprNode.Run, selectorExprNode.subFields, h, hs]
  · intro rps parseExprNode hnil
    have hA := findSelector_bare rps hnil [] (some ⟨[], 'A', [], []⟩) (by decide) (by decide)
    have hR := findSelector_bare rps hnil [] none (by decide) (by decide)
    simp only [groupText, FieldGroup.text, groupField, FieldGroup.path, List.nil_append,
      List.length_nil, if_true, List.cons_append] at hA hR
    refine ⟨?_, ?_, ?_, ?_⟩
    · simp [readSelectorExprNode, hA, parseSubExprs]
    · simp [readSelectorExprNode, hR, parseSubExprs]
    · intro currField
      simp [selectorExprNode.Run, selectorExprNode.subFields, selectorExprNode.opposite]
    · simp [selectorExprNode.Run, selectorExprNode.subFields, selectorExprNode.opposite]

/-- Witness for C3: the modelled reader, and a context in which every field
resolves to the string made of its own path. -/
theorem run_effective_field_witness :
    readPairedSymbol '[' ']' [] = none ∧
    readSelectorExprNode (readPairedSymbol '[' ']') (fun _ => (none : Option (ExprNode ℤ)))
        ['(', 'A', ')', '$'] = some (some ⟨['A'], ['$'], [], none, false⟩, []) ∧
    (⟨[], ['$'], [], none, false⟩ : selectorExprNode ℤ).Run (realValue (fun _ => true))
        ['f', '.', 'g'] ⟨fun field _ => Value.str field⟩ = Value.str ['f', '.', 'g'] ∧
    (⟨['A'], ['$'], [], none, false⟩ : selectorExprNode ℤ).Run (realValue (fun _ => true))
        ['f', '.', 'g'] ⟨fun field _ => Value.str field⟩ = Value.str ['A'] :=
  have h := (run_effective_field (realValue (fun _ => true))
    (⟨fun field _ => Value.str field⟩ : TagExpr ℤ)).2.2.2 (readPairedSymbol '[' ']')
    (fun _ => none) rfl
  ⟨rfl, h.1, h.2.2.2, h.2.2.1 ['f', '.', 'g']⟩

/-- C4: with the float negation flag set, `Run` returns `-f` when the resolved
value is a float64 `f` and nil for every other resolved value, nil included,
whatever the boolean negation flag is. -/
theorem run_floatOpposite {F : Type} [Neg F] (realValue : Value F → Option Bool → Value F)
    (ve : selectorExprNode F) (currField : Text) (tagExpr : TagExpr F)
    (hfo : ve.floatOpposite = true) :
    (∀ f, tagExpr.getValue (if ve.field = [] then currField else ve.field)
        (ve.subFields currField tagExpr) = Value.float f →
      ve.Run realValue currField tagExpr = Value.float (-f)) ∧
    ((∀ f, tagExpr.getValue (if ve.field = [] then currField else ve.field)
        (ve.subFields currField tagExpr) ≠ Value.float f) →
      ve.Run realValue currField tagExpr = Value.nil) ∧
    (∀ b : Option Bool,
      (⟨ve.field, ve.name, ve.subExprs, b, ve.floatOpposite⟩ : selectorExprNode F).Run
        realValue currField tagExpr = ve.Run realValue currField tagExpr) := by
  refine ⟨?_, ?_, ?_⟩
  · intro f hv
    simp only [selectorExprNode.Run, selectorExprNode.opposite, hfo, if_true, hv]
  · intro hv
    unfold selectorExprNode.Run selectorExprNode.opposite
    rw [if_pos hfo]
    split
    · rename_i f hf; exact absurd hf (hv f)
    · rfl
  · intro b
    simp only [selectorExprNode.Run, selectorExprNode.opposite, selectorExprNode.subFields, hfo,
      if_true]

/-- Witness for C4: the node of `-$` with a boolean flag added, run where the
field `A` holds the float `-7` and every other field a string. -/
theorem run_floatOpposite_witness :
    (⟨[], ['$'], [], some true, true⟩ : selectorExprNode ℤ).floatOpposite = true ∧
    (⟨[], ['$'], [], some true, true⟩ : selectorExprNode ℤ).Run (realValue (fun _ => true))
      ['A'] ⟨fun field _ => if field = ['A'] then Value.float (-7) else Value.str field⟩
      = Value.float (-(-7)) ∧
    (⟨[], ['$'], [], some true, true⟩ : selectorExprNode ℤ).Run (realValue (fun _ => true))
      ['B'] ⟨fun field _ => if field = ['A'] then Value.float (-7) else Value.str field⟩
      = Value.nil :=
  have hA := run_floatOpposite (realValue (fun _ => true))
    (⟨[], ['$'], [], some true, true⟩ : selectorExprNode ℤ) ['A']
    ⟨fun field _ => if field = ['A'] then Value.float (-7) else Value.str field⟩ rfl
  have hB := run_floatOpposite (realValue (fun _ => true))
    (⟨[], ['$'], [], some true, true⟩ : selectorExprNode ℤ) ['B']
    ⟨fun field _ => if field = ['A'] then Value.float (-7) else Value.str field⟩ rfl
  ⟨rfl, hA.1 (-7) (by decide), hB.2.1 (by intro f; simp)⟩

/-- C5 as stated fails: the node read from `--$` has no float negation flag, and
run where the field resolves to the string `abc` it returns that string, which is
neither a float64 nor nil. -/
theorem even_minus_string_not_nil :
    readSelectorExprNode (readPairedSymbol '[' ']') (fun _ => (none : Option (ExprNode ℤ)))
        ['-', '-', '$'] = some (some ⟨[], ['$'], [], none, false⟩, []) ∧
    (⟨[], ['$'], [], none, false⟩ : selectorExprNode ℤ).Run (realValue (fun _ => true)) ['B']
        ⟨fun _ _ => Value.str ['a', 'b', 'c']⟩ = Value.str ['a', 'b', 'c'] ∧
    (∀ f : ℤ, (Value.str ['a', 'b', 'c'] : Value ℤ) ≠ Value.float f) ∧
    (Value.str ['a', 'b', 'c'] : Value ℤ) ≠ Value.nil := by
  refine ⟨?_, rfl, by intro f; simp, by simp⟩
  have h := findSelector_bare (readPairedSymbol '[' ']') rfl ['-', '-'] none (by decide) rfl
  simp only [groupText, List.nil_append] at h
  have h2 : findSelector (readPairedSymbol '[' ']') ['-', '-', '$'] =
      some ⟨[], ['$'], [], none, false, true, []⟩ := by
    rw [show (['-', '-', '$'] : Text) = ['-', '-'] ++ ['$'] from rfl, h]
    decide
  simp [readSelectorExprNode, h2, parseSubExprs]

/-- C5 (amended): the selector read from a text with an even, non-zero number of
`-` is the selector read from the same text without them: the float negation
flag is false and the boolean one absent.  Its evaluation does not take the float
negation path: it returns `realValue(v, nil)` for the resolved value `v`, which
with the pass-through of the specification is `v` itself, so a float64 keeps its
sign and a value that is not a float64 is not replaced by nil. -/
theorem even_minus_run {F : Type} [Neg F] (rps : PairedReader) (hs : Shrinks rps)
    (parseExprNode : Text → Option (ExprNode F)) (k : Nat) (hk : 1 ≤ k)
    (g : Option FieldGroup) (tail : Text) (fuel : Nat) (subs : List Text) (cur : Text)
    (nodes : List (ExprNode F))
    (hg : groupWf g = true) (ht : delimited tail = true)
    (hb : readBrackets rps fuel tail [] = some (Brackets.done subs cur))
    (hp : parseSubExprs parseExprNode subs = some nodes) :
    readSelectorExprNode rps parseExprNode
        (List.replicate (2 * k) '-' ++ (groupText g ++ '$' :: tail)) =
      some (some ⟨groupField g, ['$'], nodes, none, false⟩, cur) ∧
    readSelectorExprNode rps parseExprNode (groupText g ++ '$' :: tail) =
      some (some ⟨groupField g, ['$'], nodes, none, false⟩, cur) ∧
    (∀ (rv : Value F → Option Bool → Value F) (currField : Text) (tagExpr : TagExpr F),
      (⟨groupField g, ['$'], nodes, none, false⟩ : selectorExprNode F).Run rv currField tagExpr =
        rv (tagExpr.getValue (if groupField g = [] then currField else groupField g)
          (nodes.map (fun e => e.Run currField tagExpr))) none) ∧
    (∀ (truthy : Value F → Bool) (currField : Text) (tagExpr : TagExpr F),
      (⟨groupField g, ['$'], nodes, none, false⟩ : selectorExprNode F).Run (realValue truthy)
          currField tagExpr =
        tagExpr.getValue (if groupField g = [] then currField else groupField g)
          (nodes.map (fun e => e.Run currField tagExpr))) := by
  have h1 := findSelector_replicate rps hs '-' (2 * k) g tail fuel subs cur (by decide) hg ht hb
  have h0 := findSelector_replicate rps hs '-' 0 g tail fuel subs cur (by decide) hg ht hb
  have hk0 : ¬ 2 * k = 0 := by omega
  have hpar : (2 * k % 2 == 1) = false := by simp
  simp only [hk0, if_false, hpar, show ¬ ('-' = '!') by decide, if_true] at h1
  simp only [if_true, List.replicate_zero, List.nil_append] at h0
  refine ⟨?_, ?_, ?_, ?_⟩
  · simp [readSelectorExprNode, h1, hp]
  · simp [readSelectorExprNode, h0, hp]
  · intro rv currField tagExpr
    simp [selectorExprNode.Run, selectorExprNode.subFields, selectorExprNode.opposite]
  · intro truthy currField tagExpr
    simp [selectorExprNode.Run, selectorExprNode.subFields, selectorExprNode.opposite,
      realValue]

/-- Witness for C5 (amended): the text `--(A)$[x]>1` read with the modelled
reader, its sub-expression parsed to a node that yields the string it was
parsed from. -/
theorem even_minus_run_witness :
    Shrinks (readPairedSymbol '[' ']') ∧ 1 ≤ 1 ∧
    groupWf (some ⟨[], 'A', [], []⟩) = true ∧ delimited ['[', 'x', ']', '>', '1'] = true ∧
    readBrackets (readPairedSymbol '[' ']') 2 ['[', 'x', ']', '>', '1'] [] =
      some (Brackets.done [['x']] ['>', '1']) ∧
    readSelectorExprNode (readPairedSymbol '[' ']')
        (fun s => some (⟨fun _ _ => Value.str s⟩ : ExprNode ℤ))
        (List.replicate (2 * 1) '-' ++
          (groupText (some ⟨[], 'A', [], []⟩) ++ '$' :: ['[', 'x', ']', '>', '1'])) =
      some (some ⟨groupField (some ⟨[], 'A', [], []⟩), ['$'],
        [⟨fun _ _ => Value.str ['x']⟩], none, false⟩, ['>', '1']) :=
  ⟨readPairedSymbol_shrinks '[' ']', le_refl 1, by decide, by decide, by decide,
    (even_minus_run (readPairedSymbol '[' ']') (readPairedSymbol_shrinks '[' ']')
      (fun s => some (⟨fun _ _ => Value.str s⟩ : ExprNode ℤ)) 1 (le_refl 1)
      (some ⟨[], 'A', [], []⟩) ['[', 'x', ']', '>', '1'] 2 [['x']] ['>', '1']
      [⟨fun _ _ => Value.str ['x']⟩] (by decide) (by decide) (by decide) rfl).1⟩

/-! ## The traversal of slices and arrays -/

theorem validateIndexes_cons {E X : Type} (v : Validator E X) (selectorPrefix : Text) (i : Nat)
    (elem : RValue) (elems : List RValue) :
    validateIndexes v selectorPrefix i (elem :: elems) =
      match validateIndexes v selectorPrefix (i + 1) elems with
      | (calls, some err) => (calls, some err)
      | (calls, none) =>
        (calls ++ (validate v (selectorPrefix ++ itoa i ++ ['/']) elem).1,
          (validate v (selectorPrefix ++ itoa i ++ ['/']) elem).2) := by
  rw [validateIndexes]

theorem validateIndexes_all_pass {E X : Type} (v : Validator E X) (selectorPrefix : Text) :
    ∀ (elems : List RValue) (i : Nat),
      (∀ (k : Nat) (hk : k < elems.length),
        (validate v (selectorPrefix ++ itoa (i + k) ++ ['/']) elems[k]).2 = none) →
      validateIndexes v selectorPrefix i elems =
        (callsDescending v selectorPrefix i elems, none) := by
  intro elems
  induction elems with
  | nil => intro i _; simp [validateIndexes, callsDescending]
  | cons e es ih =>
    intro i h
    have htail := ih (i + 1) (by
      intro k hk
      have := h (k + 1) (by simp only [List.length_cons]; omega)
      rw [show i + (k + 1) = i + 1 + k by omega] at this
      simpa using this)
    have hhead := h 0 (by simp)
    simp only [Nat.add_zero, List.getElem_cons_zero] at hhead
    rw [validateIndexes_cons, htail]
    simp only [callsDescending, hhead]

theorem validateIndexes_fails {E X : Type} (v : Validator E X) (selectorPrefix : Text) :
    ∀ (elems : List RValue) (i j : Nat) (hj : j < elems.length) (err : E),
      (validate v (selectorPrefix ++ itoa (i + j) ++ ['/']) elems[j]).2 = some err →
      (∀ (k : Nat) (hk : k < elems.length), j < k →
        (validate v (selectorPrefix ++ itoa (i + k) ++ ['/']) elems[k]).2 = none) →
      validateIndexes v selectorPrefix i elems =
        (callsDescending v selectorPrefix (i + j) (elems.drop j), some err) := by
  intro elems
  induction elems with
  | nil => intro i j hj; simp at hj
  | cons e es ih =>
    intro i j hj err hfail hpass
    cases j with
    | zero =>
      have htail := validateIndexes_all_pass v selectorPrefix es (i + 1) (by
        intro k hk
        have := hpass (k + 1) (by simp only [List.length_cons]; omega) (by omega)
        rw [show i + (k + 1) = i + 1 + k by omega] at this
        simpa using this)
      simp only [Nat.add_zero, List.getElem_cons_zero] at hfail
      rw [validateIndexes_cons, htail]
      simp only [List.drop_zero, Nat.add_zero, callsDescending, hfail]
    | succ m =>
      have hm : m < es.length := by simp only [List.length_cons] at hj; omega
      have hfail2 : (validate v (selectorPrefix ++ itoa (i + 1 + m) ++ ['/']) es[m]).2
          = some err := by
        rw [show i + 1 + m = i + (m + 1) by omega]
        simpa using hfail
      have htail := ih (i + 1) m hm err hfail2 (by
        intro k hk hlt
        have := hpass (k + 1) (by simp only [List.length_cons]; omega) (by omega)
        rw [show i + (k + 1) = i + 1 + k by omega] at this
        simpa using this)
      rw [validateIndexes_cons, htail]
      simp only [List.drop_succ_cons]
      rw [show i + (m + 1) = i + 1 + m by omega]

/-- C9: on a non-empty slice or array whose element kind is composite, `validate`
goes through the elements from the highest index down and stops at the first
error: when the element at the index `j` fails and every element behind it
passes, the error returned is the one of that element, validated under
`selectorPrefix + j + "/"`, and the calls of `validate` made are, after the call
itself, those made for the elements at the indexes `count-1` down to `j` and no
other.  An empty slice, and a slice of another element kind, return nil with no
further call. -/
theorem validate_slice_descending {E X : Type} (v : Validator E X) (selectorPrefix : Text)
    (array : Bool) (elemKind : Kind) (elems : List RValue) :
    (isComposite elemKind = true →
      ∀ (j : Nat) (hj : j < elems.length) (err : E),
        (validate v (selectorPrefix ++ itoa j ++ ['/']) elems[j]).2 = some err →
        (∀ (k : Nat) (hk : k < elems.length), j < k →
          (validate v (selectorPrefix ++ itoa k ++ ['/']) elems[k]).2 = none) →
        validate v selectorPrefix (RValue.list array elemKind elems) =
          ((selectorPrefix, RValue.list array elemKind elems) ::
            callsDescending v selectorPrefix j (elems.drop j), some err)) ∧
    (elems = [] ∨ isComposite elemKind = false →
      validate v selectorPrefix (RValue.list array elemKind elems) =
        ([(selectorPrefix, RValue.list array elemKind elems)], none)) := by
  constructor
  · intro hc j hj err hfail hpass
    have hlen : ¬ elems.length = 0 := by omega
    have h := validateIndexes_fails v selectorPrefix elems 0 j hj err
      (by simpa using hfail) (by intro k hk hlt; simpa using hpass k hk hlt)
    rw [validate, if_neg hlen, if_pos hc, h]
    simp
  · intro h
    rcases h with h | h
    · subst h
      rw [validate]
      simp
    · rw [validate]
      by_cases hlen : elems.length = 0
      · rw [if_pos hlen]
      · rw [if_neg hlen, h]
        simp

/-- Witness for C9: a slice of three structs of which those at the indexes 0 and 1
fail: the error is the one of the index 1, and the index 0 is not validated. -/
theorem validate_slice_descending_witness :
    isComposite Kind.Struct = true ∧
    (validate sampleValidator [] (RValue.list false Kind.Struct
      [RValue.leaf Kind.Struct 1, RValue.leaf Kind.Struct 1, RValue.leaf Kind.Struct 0])).2 =
      some (['1', '/', 'A'], []) ∧
    validate sampleValidator [] (RValue.list false Kind.Struct
      [RValue.leaf Kind.Struct 1, RValue.leaf Kind.Struct 1, RValue.leaf Kind.Struct 0]) =
      (([], RValue.list false Kind.Struct
          [RValue.leaf Kind.Struct 1, RValue.leaf Kind.Struct 1, RValue.leaf Kind.Struct 0]) ::
        callsDescending sampleValidator [] 1
          ([RValue.leaf Kind.Struct 1, RValue.leaf Kind.Struct 1,
            RValue.leaf Kind.Struct 0].drop 1),
        some (['1', '/', 'A'], [])) :=
  have h := (validate_slice_descending sampleValidator [] false Kind.Struct
    [RValue.leaf Kind.Struct 1, RValue.leaf Kind.Struct 1, RValue.leaf Kind.Struct 0]).1
    (by decide) 1 (by decide) (['1', '/', 'A'], []) (by decide)
    (by
      intro k hk hlt
      have hk2 : k = 2 := by simp only [List.length_cons, List.length_nil] at hk; omega
      subst hk2
      rfl)
  ⟨by decide, by rw [h], h⟩

/-! ## Binding a scalar field -/

theorem bindStringSlice_parsed {E F S : Type} (env : BindEnv E F S) (p : paramInfo)
    (info : tagInfo E) (k : Kind) (hk : isScalar k = true) (s : Text) (x : Stored F S)
    (more : List Text) (h : parseScalar env k s = (x, none)) :
    bindStringSlice env p info (some k) s more = ⟨none, some x⟩ := by
  cases k <;> simp [isScalar] at hk <;>
    simp only [parseScalar, bitSize, Prod.mk.injEq, reduceCtorEq, if_true, if_false,
      Bool.or_self, Bool.or_false, Bool.or_true, Bool.false_eq_true, decide_True,
      decide_False] at h <;>
    obtain ⟨hx, he⟩ := h <;>
    simp only [bindStringSlice, accepted, he, ← hx, Option.isNone_none, Bool.true_or, if_true]

theorem bindStringSlice_empty {E F S : Type} [Zero F] (env : BindEnv E F S) (p : paramInfo)
    (info : tagInfo E) (k : Kind) (hk : isScalar k = true) (more : List Text)
    (he : EmptyFails env) :
    bindStringSlice env p info (some k) [] more =
      if p.looseZeroMode then ⟨none, some (zeroValue k)⟩ else ⟨some info.typeError, none⟩ := by
  obtain ⟨⟨eb, hb⟩, hf, hi, hu⟩ := he
  obtain ⟨e1, hf32⟩ := hf 32
  obtain ⟨e2, hf64⟩ := hf 64
  obtain ⟨e3, hi8⟩ := hi 8
  obtain ⟨e4, hi16⟩ := hi 16
  obtain ⟨e5, hi32⟩ := hi 32
  obtain ⟨e6, hi64⟩ := hi 64
  obtain ⟨e7, hu8⟩ := hu 8
  obtain ⟨e8, hu16⟩ := hu 16
  obtain ⟨e9, hu32⟩ := hu 32
  obtain ⟨e10, hu64⟩ := hu 64
  obtain ⟨loose⟩ := p
  cases k <;> simp [isScalar] at hk <;>
    cases loose <;>
    simp [bindStringSlice, accepted, zeroValue, hb, hf32, hf64, hi8, hi16, hi32, hi64, hu8,
      hu16, hu32, hu64]

/-- C10: for a field of a scalar boolean, integer, unsigned-integer or float kind,
an input string that parses is written as parsed and nil is returned, with
`looseZeroMode` on or off; the input string `""`, on which the parsers of
`strconv` fail with a zero value, makes `bindStringSlice` write the zero value of
the kind and return nil when `looseZeroMode` is on, and return `info.typeError`
with nothing written when it is off. -/
theorem bindStringSlice_scalar {E F S : Type} [Zero F] (env : BindEnv E F S) (p : paramInfo)
    (info : tagInfo E) (k : Kind) (hk : isScalar k = true) :
    (∀ (s : Text) (x : Stored F S) (more : List Text), parseScalar env k s = (x, none) →
      bindStringSlice env p info (some k) s more = ⟨none, some x⟩) ∧
    (EmptyFails env →
      (p.looseZeroMode = true →
        bindStringSlice env p info (some k) [] [] = ⟨none, some (zeroValue k)⟩) ∧
      (p.looseZeroMode = false →
        bindStringSlice env p info (some k) [] [] = ⟨some info.typeError, none⟩)) := by
  refine ⟨fun s x more h => bindStringSlice_parsed env p info k hk s x more h, ?_⟩
  intro he
  have h := bindStringSlice_empty env p info k hk [] he
  constructor
  · intro hl; rw [h, hl]; rfl
  · intro hl; rw [h, hl]; rfl

/-- Witness for C10: a field of kind `int32` in the sample environment, bound to
`""` with `looseZeroMode` on and off, and to `42`. -/
theorem bindStringSlice_scalar_witness :
    isScalar Kind.Int32 = true ∧ EmptyFails sampleEnv ∧
    parseScalar sampleEnv Kind.Int32 ['4', '2'] = (Stored.int 42, none) ∧
    bindStringSlice sampleEnv ⟨false⟩ (⟨['e']⟩ : tagInfo Text) (some Kind.Int32) ['4', '2'] [] =
      ⟨none, some (Stored.int 42)⟩ ∧
    bindStringSlice sampleEnv ⟨true⟩ (⟨['e']⟩ : tagInfo Text) (some Kind.Int32) [] [] =
      ⟨none, some (zeroValue Kind.Int32)⟩ ∧
    bindStringSlice sampleEnv ⟨false⟩ (⟨['e']⟩ : tagInfo Text) (some Kind.Int32) [] [] =
      ⟨some ['e'], none⟩ :=
  have he : EmptyFails sampleEnv :=
    ⟨⟨[], rfl⟩, fun _ => ⟨[], rfl⟩, fun _ => ⟨[], rfl⟩, fun _ => ⟨[], rfl⟩⟩
  ⟨by decide, he, by decide,
    (bindStringSlice_scalar sampleEnv ⟨false⟩ ⟨['e']⟩ Kind.Int32 (by decide)).1
      ['4', '2'] (Stored.int 42) [] (by decide),
    ((bindStringSlice_scalar sampleEnv ⟨true⟩ ⟨['e']⟩ Kind.Int32 (by decide)).2 he).1 rfl,
    ((bindStringSlice_scalar sampleEnv ⟨false⟩ ⟨['e']⟩ Kind.Int32 (by decide)).2 he).2 rfl⟩

/-! ## Sub-expressions made of blanks -/

theorem findSelector_one_pair (rps : PairedReader) (chunk sub : Text)
    (hnil : rps [] = none) (hread : rps chunk = some (sub, []))
    (hd : delimited chunk = true)
    (hok : ¬ (sub = [] ∨ sub.head? = some '[')) :
    findSelector rps ('$' :: chunk) =
      some ⟨[], ['$'], [trimSpace sub], none, false, true, []⟩ := by
  have h := findSelectorFuel_grammar rps (('$' :: chunk).length + 1) [] none chunk
    (by intro x hx; cases hx) rfl hd
  simp only [groupText, groupField, List.nil_append, List.length_nil, if_true] at h
  unfold findSelector
  rw [h]
  have hb : readBrackets rps (('$' :: chunk).length + 1) chunk [] =
      some (Brackets.done [trimSpace sub] []) := by
    rw [show ('$' :: chunk).length + 1 = chunk.length + 1 + 1 by simp]
    rw [readBrackets, hread]
    simp only [if_neg hok, List.nil_append]
    rw [readBrackets, hnil]
  rw [hb]

/-- C11 (the code departs from the claim): `findSelector` looks at the content of
a bracket pair before `strings.TrimSpace` is applied to it and returns it
after.  On `$[ ]` it succeeds with the empty sub-expression, and on `$[ [x]]`
with the sub-expression `[x]`, which starts with `[`; `readSelectorExprNode`
hands the empty text on to the parser.  Holds for every reader that reads the
pair with the content between its brackets and answers nil on the empty text. -/
theorem findSelector_blank_content_passes {F : Type} (rps : PairedReader)
    (parseExprNode : Text → Option (ExprNode F))
    (hnil : rps [] = none)
    (hblank : rps ['[', ' ', ']'] = some ([' '], []))
    (hnested : rps ['[', ' ', '[', 'x', ']', ']'] = some ([' ', '[', 'x', ']'], [])) :
    findSelector rps ['$', '[', ' ', ']'] =
      some ⟨[], ['$'], [[]], none, false, true, []⟩ ∧
    findSelector rps ['$', '[', ' ', '[', 'x', ']', ']'] =
      some ⟨[], ['$'], [['[', 'x', ']']], none, false, true, []⟩ ∧
    readSelectorExprNode rps parseExprNode ['$', '[', ' ', ']'] =
      (match parseExprNode [] with
        | none => some (none, [])
        | some grp => some (some ⟨[], ['$'], [grp], none, false⟩, [])) := by
  have h1 := findSelector_one_pair rps ['[', ' ', ']'] [' '] hnil hblank (by decide) (by decide)
  have h2 := findSelector_one_pair rps ['[', ' ', '[', 'x', ']', ']'] [' ', '[', 'x', ']'] hnil
    hnested (by decide) (by decide)
  have t1 : trimSpace [' '] = [] := by decide
  have t2 : trimSpace [' ', '[', 'x', ']'] = ['[', 'x', ']'] := by decide
  rw [t1] at h1
  rw [t2] at h2
  refine ⟨h1, h2, ?_⟩
  simp only [readSelectorExprNode, h1, if_true, parseSubExprs]
  cases parseExprNode [] <;> rfl

/-- Witness for C11: the modelled reader reads the pairs of `$[ ]` and `$[ [x]]`
as assumed, and a parser that refuses the empty text is handed it. -/
theorem findSelector_blank_content_passes_witness :
    readPairedSymbol '[' ']' [] = none ∧
    readPairedSymbol '[' ']' ['[', ' ', ']'] = some ([' '], []) ∧
    readPairedSymbol '[' ']' ['[', ' ', '[', 'x', ']', ']'] =
      some ([' ', '[', 'x', ']'], []) ∧
    findSelector (readPairedSymbol '[' ']') ['$', '[', ' ', ']'] =
      some ⟨[], ['$'], [[]], none, false, true, []⟩ ∧
    findSelector (readPairedSymbol '[' ']') ['$', '[', ' ', '[', 'x', ']', ']'] =
      some ⟨[], ['$'], [['[', 'x', ']']], none, false, true, []⟩ :=
  have h := findSelector_blank_content_passes (readPairedSymbol '[' ']')
    (fun _ => (none : Option (ExprNode ℤ))) rfl (by decide) (by decide)
  ⟨rfl, by decide, by decide, h.1, h.2.1⟩

end Tagexpr
